import Mathlib

/-
  Verification development for the lounge document-model core
  (lib/basemodel.js: AbstractBaseModel / BaseModel / PlainBaseModel).

  The JavaScript value universe is embedded as the inductive `Value`;
  plain objects and the per-instance value store are association lists
  (`JsObj`) with JavaScript property semantics (an update keeps the
  position of an existing key, a fresh key is appended).  Stateful code
  is explicit state passing on `State` (store, shared schema, error
  log).  Code of the repository that is not part of basemodel.js
  (the field accessor pipeline of basemodel.utils.js and the Schema
  class of schema.js) is modelled from the specification; each such
  definition carries a doc comment saying so.
-/

namespace Lounge

/-- JavaScript values as far as the document core manipulates them:
undefined, null, strings, numbers (modelled as integers), booleans,
dates (epoch milliseconds), plain arrays and plain objects.  Nested
document instances and ObjectArray wrappers are outside this universe;
no claim below exercises them. -/
inductive Value where
  | undef : Value
  | null : Value
  | str (s : String) : Value
  | num (n : Int) : Value
  | bool (b : Bool) : Value
  | date (ms : Int) : Value
  | arr (xs : List Value) : Value
  | obj (kvs : List (String × Value)) : Value
deriving Repr

/-- A JavaScript plain object / the raw value store `_obj`: ordered
key-value pairs with at most one entry per key in well-formed use. -/
abbrev JsObj := List (String × Value)

/-- Property read: the value under a key, undefined when absent. -/
def jsGet (o : JsObj) (k : String) : Value :=
  match o with
  | [] => Value.undef
  | (k', v) :: rest => if k' = k then v else jsGet rest k

/-- Property write: replaces the value of an existing key in place,
appends a fresh key at the end (JavaScript insertion-order semantics). -/
def jsPut (o : JsObj) (k : String) (v : Value) : JsObj :=
  match o with
  | [] => [(k, v)]
  | (k', v') :: rest => if k' = k then (k', v) :: rest else (k', v') :: jsPut rest k v

/-- The keys of a plain object, in insertion order. -/
def jsKeys (o : JsObj) : List String := o.map Prod.fst

/-- Schema field type tags (basemodel.js writes the dynamically added
descriptor as type any; the remaining tags come from the type system
described for schema.js).  Nested object types produce sub-documents,
which are outside the modelled value universe; the tag is kept so the
descriptor shape matches the source. -/
inductive FType where
  | string : FType
  | number : FType
  | boolean : FType
  | date : FType
  | array : FType
  | object : FType
  | any : FType
deriving Repr, DecidableEq

/-- The raw instance value store `_obj`. -/
abbrev Store := JsObj

/-- A toObject/toJSON transform option value: JavaScript allows the
boolean true/false as well as a transform function.  A transform
function receives the instance (its store), the built result and
returns either a replacement value or undefined (modelled as none).
The options argument the source also passes is not consumed by any
modelled transform. -/
inductive TransformVal where
  | tbool (b : Bool) : TransformVal
  | tfn (f : Store → JsObj → Option Value) : TransformVal

/-- A toObject/toJSON option object; absent keys are none, matching
the undefined checks of _prepareToObjectOptions. -/
structure Options where
  transform : Option TransformVal := none
  json : Option Bool := none
  minimize : Option Bool := none
  virtuals : Option Bool := none
  serializable : Option Bool := none
  dateToISO : Option Bool := none
  useSchemaOptions : Bool := false

/-- A field default: a literal value (deep-cloned per instance, which
is the identity on pure values) or a zero-argument producer evaluated
with the owning instance as context, modelled as a function of the
value store populated so far. -/
inductive DefaultSpec where
  | lit (v : Value) : DefaultSpec
  | fn (f : Store → Value) : DefaultSpec

/-- Modelled from the spec: a resolved field descriptor (schema.js is
not part of the sources).  Attributes carried are the ones the
basemodel.js core reads: type, readOnly, invisible, virtual,
serializable, default, the write-time transform and validate hooks,
the read-time get transform, and a virtual getter.  String/number
constraint attributes, aliases and nested object types are not
exercised by any claim and are left out of the descriptor. -/
structure FieldDesc where
  type : FType := FType.any
  readOnly : Bool := false
  invisible : Bool := false
  virtual : Bool := false
  serializable : Bool := true
  arrayType : Option FType := none
  default : Option DefaultSpec := none
  transform : Option (Value → Value) := none
  validate : Option (Value → Bool) := none
  getTransform : Option (Value → Value) := none
  virtualGet : Option (Store → Value) := none

/-- Modelled from the spec: the compiled Schema (schema.js is not part
of the sources): an ordered field-name-to-descriptor mapping plus the
schema options basemodel.js consults.  `dotPaths` is the schema option
the source calls dotNotation. -/
structure Schema where
  fields : List (String × FieldDesc)
  strict : Bool := true
  dotPaths : Bool := false
  toObjectOpts : Option Options := none
  toJSONOpts : Option Options := none

/-- Descriptor lookup in an ordered field list. -/
def findField : List (String × FieldDesc) → String → Option FieldDesc
  | [], _ => none
  | (k, d) :: rest, name => if k = name then some d else findField rest name

/-- Descriptor lookup, `schema.descriptor[name]`. -/
def Schema.find (sch : Schema) (name : String) : Option FieldDesc :=
  findField sch.fields name

/-- One error record as produced by the pipeline and returned by
getErrors(). -/
structure ErrorRec where
  errorMessage : String
  setValue : Value
  originalValue : Value
deriving Repr

/-- A document instance together with the schema it shares: the raw
store `_obj`, the error log `_errors`, and the extendEventEmitter build
flag of its class.  The schema travels in the state because non-strict
writes mutate it in place for every instance of the model. -/
structure State where
  ext : Bool
  schema : Schema
  store : Store
  errors : List ErrorRec

/-- The own property names of a fresh EventEmitter, captured by
basemodel.js at load time (eventEmmiterInternals, source spelling
kept).  Modelled from the Node.js events module runtime value. -/
def eventEmmiterInternals : List String := ["_events", "_eventsCount", "_maxListeners"]

/-- Dot-notation detection, name.indexOf of a dot (over the character
list so that concrete instances evaluate). -/
def hasDot (s : String) : Bool := s.data.contains '.'

/-- Decimal digit run to a natural number; none when a non-digit occurs. -/
def decNat (cs : List Char) : Option Nat :=
  cs.foldl
    (fun acc c =>
      match acc with
      | none => none
      | some n => if c.isDigit then some (n * 10 + (c.toNat - 48)) else none)
    (some 0)

/-- Modelled from the spec: the numeric parse used by the Number
typecast; an optionally signed run of decimal digits, anything else is
a cast failure. -/
def parseNumberM (s : String) : Option Int :=
  match s.data with
  | [] => none
  | c :: rest =>
    if c = '-' then
      match rest with
      | [] => none
      | _ => (decNat rest).map (fun n => -(Int.ofNat n))
    else (decNat (c :: rest)).map Int.ofNat

/-- Modelled from the spec: typecast of a raw value to a scalar type
tag (Pipeline step 4; the typecasting code of basemodel.utils.js is
not in the sources).  A value already of the declared type is returned
unchanged, a few natural coercions succeed, and everything else is a
cast failure; the boolean cast accepts only booleans, matching the
documented rejection of arbitrary strings. -/
def typecastPrim : FType → Value → Option Value
  | FType.any, v => some v
  | FType.string, Value.str s => some (Value.str s)
  | FType.string, Value.num n => some (Value.str (toString n))
  | FType.string, Value.bool b => some (Value.str (if b then "true" else "false"))
  | FType.number, Value.num n => some (Value.num n)
  | FType.number, Value.bool b => some (Value.num (if b then 1 else 0))
  | FType.number, Value.date t => some (Value.num t)
  | FType.number, Value.str s => (parseNumberM s).map Value.num
  | FType.boolean, Value.bool b => some (Value.bool b)
  | FType.date, Value.date t => some (Value.date t)
  | FType.date, Value.num n => some (Value.date n)
  | _, _ => none

/-- Modelled from the spec: the full typecast step: scalars go through
typecastPrim; an array value is cast element by element against the
declared element type, dropping elements that fail, each drop recorded
as its own error; an object-typed field accepts a plain object (nested
document construction is outside the modelled universe). -/
def typecast (p : FieldDesc) (v current : Value) : Option Value × List ErrorRec :=
  match p.type with
  | FType.array =>
    match v with
    | Value.arr xs =>
      let et := match p.arrayType with | some t => t | none => FType.any
      let r := xs.foldl
        (fun (acc : List Value × List ErrorRec) x =>
          match typecastPrim et x with
          | some y => (acc.1 ++ [y], acc.2)
          | none => (acc.1, acc.2 ++ [⟨"Typecast failed for array element", x, current⟩]))
        ([], [])
      (some (Value.arr r.1), r.2)
    | _ => (none, [⟨"Typecast failed", v, current⟩])
  | FType.object =>
    match v with
    | Value.obj kvs => (some (Value.obj kvs), [])
    | _ => (none, [⟨"Typecast failed", v, current⟩])
  | t =>
    match typecastPrim t v with
    | some w => (some w, [])
    | none => (none, [⟨"Typecast failed", v, current⟩])

/-- Modelled from the spec: the write pipeline of a registered field
setter (defineProperty of basemodel.utils.js is not in the sources):
readOnly short-circuit, transform, validate, typecast; any failure
keeps the current value and records an error.  bypassRO models the
temporary properties.readOnly = false toggle the constructor performs
while populating defaults. -/
def applyPipeline (p : FieldDesc) (raw current : Value) (bypassRO : Bool) :
    Value × List ErrorRec :=
  if p.readOnly && !bypassRO then (current, [])
  else
    let v1 := match p.transform with | some f => f raw | none => raw
    let rejected := match p.validate with | some f => !(f v1) | none => false
    if rejected then (current, [⟨"Validator failed", v1, current⟩])
    else
      match typecast p v1 current with
      | (some v2, errs) => (v2, errs)
      | (none, errs) => (current, errs)

/-- Write through the registered setter of a declared field: the
pipeline result is stored and pipeline errors are appended to the
error log.  Virtual fields have no backing slot; no claim writes one,
and such a write is modelled as leaving the state unchanged. -/
def writeDeclared (st : State) (name : String) (p : FieldDesc) (raw : Value)
    (bypassRO : Bool) : State :=
  if p.virtual then st
  else
    let current := jsGet st.store name
    let r := applyPipeline p raw current bypassRO
    { st with store := jsPut st.store name r.1, errors := st.errors ++ r.2 }

/-- The dynamically added descriptor for non-strict unknown fields,
source literal: type any. -/
def anyDesc : FieldDesc := { type := FType.any }

/-- Proxy set trap for a dot-free property name (basemodel.js lines
116-146), returning the boolean the trap returns together with the
resulting state: declared fields go to their registered setter; for
undeclared names, EventEmitter internals are swallowed on
event-emitting models, strict mode refuses the write (the trap returns
false), and otherwise _addToSchema appends an any-typed descriptor to
the shared schema before the write proceeds through the freshly
registered setter. -/
def proxySetCore (st : State) (name : String) (v : Value) : Bool × State :=
  match Schema.find st.schema name with
  | some p => (true, writeDeclared st name p v false)
  | none =>
    if st.ext && eventEmmiterInternals.contains name then (true, st)
    else if st.schema.strict then (false, st)
    else
      let sch' := { st.schema with fields := st.schema.fields ++ [(name, anyDesc)] }
      (true, writeDeclared { st with schema := sch' } name anyDesc v false)

/-- Modelled from the spec: the registered getter of a field: a
virtual field computes its getter; otherwise the stored value is
returned, through the get transform when one is declared, never
mutating storage. -/
def readOwn (st : State) (name : String) (p : FieldDesc) : Value :=
  if p.virtual then
    match p.virtualGet with
    | some g => g st.store
    | none => Value.undef
  else
    match p.getTransform with
    | some g => g (jsGet st.store name)
    | none => jsGet st.store name

/-- Proxy get for a dot-free name: the registered getter for declared
fields, the raw slot otherwise. -/
def readName (st : State) (name : String) : Value :=
  match Schema.find st.schema name with
  | some p => readOwn st name p
  | none => jsGet st.store name

/-- Modelled from the spec: reading a dot-notation path descends into
nested plain structures. -/
def getPathVal : Value → List String → Value
  | v, [] => v
  | Value.obj kvs, k :: rest => getPathVal (jsGet kvs k) rest
  | _, _ :: _ => Value.undef

/-- Modelled from the spec: writing a dot-notation path rebuilds the
nested plain objects along the path. -/
def setPathVal : Value → List String → Value → Value
  | _, [], v => v
  | base, k :: rest, v =>
    let kvs := match base with | Value.obj kvs => kvs | _ => []
    Value.obj (jsPut kvs k (setPathVal (jsGet kvs k) rest v))

/-- Modelled from the spec: lodash _.get through the proxy: the head
segment is read through the normal getter, the rest descends into
plain data. -/
def dotGet (st : State) (path : String) : Value :=
  match path.splitOn (".") with
  | [] => Value.undef
  | k :: rest => getPathVal (readName st k) rest

/-- Modelled from the spec: lodash _.set through the proxy: the nested
value under the head segment is rebuilt and the head segment written
back through the proxy set trap.  lodash assigns in non-strict
JavaScript, so a trap refusal does not raise. -/
def dotSet (st : State) (path : String) (v : Value) : State :=
  match path.splitOn (".") with
  | [] => st
  | k :: rest => (proxySetCore st k (setPathVal (readName st k) rest v)).2

/-- The proxy set trap as seen by a strict-mode assignment
`instance[name] = v` (basemodel.js lines 116-146): dot-notation paths
with the dotNotation schema option are routed through the lodash
setter and the trap returns true; otherwise a trap refusal raises a
TypeError at the assignment site. -/
def assignProxy (st : State) (name : String) (v : Value) : Except String State :=
  if st.schema.dotPaths && hasDot name then Except.ok (dotSet st name v)
  else
    match proxySetCore st name v with
    | (true, st') => Except.ok st'
    | (false, _) => Except.error "TypeError: proxy set trap returned false"

/-- set(path, value), the single-property form of the public set
method (basemodel.js lines 207-222): the assignment is wrapped in
try/catch, and a raised TypeError leaves the instance untouched. -/
def setKey (st : State) (path : String) (v : Value) : State :=
  match assignProxy st path v with
  | Except.ok st' => st'
  | Except.error _ => st

/-- set(map), the object form: iterates the own keys of the map, each
assignment wrapped in the same try/catch. -/
def setMap (st : State) (kvs : List (String × Value)) : State :=
  kvs.foldl (fun s kv => setKey s kv.1 kv.2) st

/-- JavaScript truthiness. -/
def jsFalsy : Value → Bool
  | Value.undef => true
  | Value.null => true
  | Value.bool b => !b
  | Value.num n => n == 0
  | Value.str s => s.isEmpty
  | _ => false

/-- JavaScript property-name stringification for non-string path
arguments (approximate for aggregates; claims only use string paths). -/
def jsKeyString : Value → String
  | Value.str s => s
  | Value.num n => toString n
  | Value.bool b => if b then "true" else "false"
  | Value.undef => "undefined"
  | Value.null => "null"
  | _ => "object"

/-- The public set dispatcher: an object path with a missing or falsy
second argument is treated as a data map, anything else as a single
keyed write. -/
def set (st : State) (path : Value) (value : Option Value) : State :=
  match path, value with
  | Value.obj kvs, none => setMap st kvs
  | Value.obj kvs, some v => if jsFalsy v then setMap st kvs else setKey st (jsKeyString (Value.obj kvs)) v
  | p, some v => setKey st (jsKeyString p) v
  | p, none => setKey st (jsKeyString p) Value.undef

/-- getErrors(). -/
def getErrors (st : State) : List ErrorRec := st.errors

/-- hasErrors() is Boolean(errors.length). -/
def hasErrors (st : State) : Bool := st.errors.length != 0

/-- clearErrors() truncates the error log. -/
def clearErrors (st : State) : State := { st with errors := [] }

/-- Default resolution: a function default is invoked with the
instance as context (modelled as the store populated so far), a
literal default is deep-cloned, the identity on pure values. -/
def resolveDefault (d : DefaultSpec) (s : Store) : Value :=
  match d with
  | DefaultSpec.lit w => w
  | DefaultSpec.fn f => f s

/-- One field of the constructor default population: a field with a
default is written through its own registered setter with readOnly
temporarily forced off for exactly that write. -/
def pdStep (s : State) (nf : String × FieldDesc) : State :=
  match nf.2.default with
  | none => s
  | some d => writeDeclared s nf.1 nf.2 (resolveDefault d s.store) true

/-- Constructor default population (basemodel.js lines 159-168), in
schema declaration order. -/
def populateDefaults (st : State) : State :=
  st.schema.fields.foldl pdStep st

/-- The AbstractBaseModel constructor (basemodel.js lines 38-181):
fresh store and error log, schema defaults populated first, then the
caller-supplied values applied through the public set pipeline.
options.clone deep-clones the incoming data, the identity on pure
values. -/
def construct (ext : Bool) (sch : Schema) (values : Option (List (String × Value))) : State :=
  let st := populateDefaults { ext := ext, schema := sch, store := [], errors := [] }
  match values with
  | some kvs => setMap st kvs
  | none => st

/-- Zero-padding helpers for the ISO date rendering. -/
def pad2 (n : Nat) : String := if n < 10 then "0" ++ toString n else toString n

def pad3 (n : Nat) : String :=
  if n < 10 then "00" ++ toString n else if n < 100 then "0" ++ toString n else toString n

def pad4 (n : Nat) : String :=
  if n < 10 then "000" ++ toString n
  else if n < 100 then "00" ++ toString n
  else if n < 1000 then "0" ++ toString n
  else toString n

/-- Civil date (year, month, day) from days since the Unix epoch, the
standard Gregorian era algorithm. -/
def civilFromDays (z0 : Int) : Int × Nat × Nat :=
  let z := z0 + 719468
  let era := z.fdiv 146097
  let doe := (z - era * 146097).toNat
  let yoe := (doe - doe / 1460 + doe / 36524 - doe / 146096) / 365
  let y : Int := (yoe : Int) + era * 400
  let doy := doe - (365 * yoe + yoe / 4 - yoe / 100)
  let mp := (5 * doy + 2) / 153
  let d := doy - (153 * mp + 2) / 5 + 1
  let m := if mp < 10 then mp + 3 else mp - 9
  (if m ≤ 2 then y + 1 else y, m, d)

/-- Modelled from the spec: the Date.prototype.toISOString rendering
of an epoch-milliseconds timestamp.  _toObject computes this rendering
in its date branch and then overwrites it, so no claim depends on its
exact text. -/
def toISOStringM (ms : Int) : String :=
  let day := ms.fdiv 86400000
  let rem := (ms - day * 86400000).toNat
  let c := civilFromDays day
  let hh := rem / 3600000
  let mi := rem % 3600000 / 60000
  let ss := rem % 60000 / 1000
  let mss := rem % 1000
  (if c.1 < 0 then "-" ++ pad4 (-c.1).toNat else pad4 c.1.toNat) ++ "-" ++ pad2 c.2.1 ++
    "-" ++ pad2 c.2.2 ++ "T" ++ pad2 hh ++ ":" ++ pad2 mi ++ ":" ++ pad2 ss ++ "." ++
    pad3 mss ++ "Z"

/-- Truthiness of an optional boolean option key (an absent key is
falsy). -/
def optTrue (o : Option Bool) : Bool :=
  match o with
  | some b => b
  | none => false

/-- Whether the transform option is the literal boolean true. -/
def Options.transformIsTrue (o : Options) : Bool :=
  match o.transform with
  | some (TransformVal.tbool true) => true
  | _ => false

/-- JavaScript truthiness of the transform option value. -/
def Options.transformTruthy (o : Options) : Bool :=
  match o.transform with
  | some (TransformVal.tbool b) => b
  | some (TransformVal.tfn _) => true
  | none => false

/-- _prepareToObjectOptions (basemodel.js lines 233-271): a missing or
non-plain options argument, or one carrying _useSchemaOptions, is
replaced by a clone of the schema-level option object with the json
flag forced; then the defaults transform: true, json, and minimize
(the schema-level minimize when it is a boolean, else true) fill in
exactly the keys the resulting object leaves undefined. -/
def prepareToObjectOptions (sch : Schema) (options : Option Options) (json : Bool) :
    Options :=
  let schemaOpt := if json then sch.toJSONOpts else sch.toObjectOpts
  let defaultMinimize : Bool :=
    match schemaOpt with
    | some o => match o.minimize with | some b => b | none => true
    | none => true
  let fromSchema : Options :=
    match schemaOpt with
    | some o => { o with json := some json, useSchemaOptions := true }
    | none => { json := some json, useSchemaOptions := true }
  let opts : Options :=
    match options with
    | none => fromSchema
    | some o => if o.useSchemaOptions then fromSchema else o
  { opts with
    transform := some (match opts.transform with | some t => t | none => TransformVal.tbool true),
    json := some (match opts.json with | some b => b | none => json),
    minimize := some (match opts.minimize with | some b => b | none => defaultMinimize) }

/-- Date test used by the serialization loop. -/
def Value.isDate : Value → Bool
  | Value.date _ => true
  | _ => false

/-- lodash _.size of a serialization candidate: keys of a plain
object, length of an array, zero for everything else (a date has no
own keys). -/
def jsSize : Value → Nat
  | Value.arr xs => xs.length
  | Value.obj kvs => kvs.length
  | _ => 0

/-- Value handling of one field of the _toObject population loop
(basemodel.js lines 305-344), on the object built so far and the
instance state: the plain-array branch executes value.splice(0), which
empties the stored array the getter handed out by reference (only a
non-virtual field without a get transform hands out the stored array)
and continues with the removed elements as a fresh array; the date
branch writes a copy or the ISO rendering into the result and then
falls through to the unconditional ret[index] = value write; a plain
object is shallow-cloned (the identity on pure values). -/
def toObjectValueStep (opts : Options) (name : String) (p : FieldDesc) (value : Value)
    (ret : JsObj) (st : State) : JsObj × State :=
  let absent := match value with
    | Value.undef => true
    | Value.null => true
    | _ => false
  if optTrue opts.minimize && absent then (ret, st)
  else
    let objLike := match value with
      | Value.arr _ => true
      | Value.obj _ => true
      | Value.date _ => true
      | _ => false
    if objLike then
      let spliced := match value with
        | Value.arr _ =>
          if !p.virtual && p.getTransform.isNone then
            { st with store := jsPut st.store name (Value.arr []) }
          else st
        | _ => st
      let ret1 := match value with
        | Value.date t =>
          if optTrue opts.dateToISO then jsPut ret name (Value.str (toISOStringM t))
          else jsPut ret name (Value.date t)
        | _ => ret
      if !(Value.isDate value) && optTrue opts.minimize && jsSize value == 0 then
        (ret1, spliced)
      else (jsPut ret1 name value, spliced)
    else (jsPut ret name value, st)

/-- One field of the _toObject population loop (basemodel.js lines
290-344): the descriptor-level skips (invisible, virtual without the
virtuals option, non-serializable under serializable: false), then the
read through the public interface, then the value handling above. -/
def toObjectStep (opts : Options) (acc : JsObj × State) (nf : String × FieldDesc) :
    JsObj × State :=
  let ret := acc.1
  let st := acc.2
  let name := nf.1
  let p := nf.2
  if p.invisible && !p.virtual then acc
  else if p.virtual && !(optTrue opts.virtuals) then acc
  else if !p.serializable && opts.serializable == some false then acc
  else
    let value := if st.schema.dotPaths && hasDot name then dotGet st name
      else readOwn st name p
    toObjectValueStep opts name p value ret st

/-- The _toObject population loop over the schema fields in
declaration order. -/
def toObjectFold (opts : Options) (st : State) : JsObj × State :=
  st.schema.fields.foldl (toObjectStep opts) ([], st)

/-- _toObject (basemodel.js lines 280-371): resolve options, build the
plain object, then resolve the transform: when the transform option is
the literal true, or a schema-level toObject option object exists and
the transform option is truthy, an explicit transform function wins
over the schema-level one; only a function value is applied, and a
defined return value replaces the result. -/
def toObjectM (st : State) (options : Option Options) (json : Bool) : Value × State :=
  let opts := prepareToObjectOptions st.schema options json
  let r := toObjectFold opts st
  let schemaOpt := if optTrue opts.json then st.schema.toJSONOpts else st.schema.toObjectOpts
  let finalT : Option TransformVal :=
    if opts.transformIsTrue || (st.schema.toObjectOpts.isSome && opts.transformTruthy) then
      match schemaOpt with
      | some so =>
        (match opts.transform with
         | some (TransformVal.tfn f) => some (TransformVal.tfn f)
         | _ => so.transform)
      | none => opts.transform
    else opts.transform
  let result : Value :=
    match finalT with
    | some (TransformVal.tfn f) =>
      (match f r.2.store r.1 with
       | some w => w
       | none => Value.obj r.1)
    | _ => Value.obj r.1
  (result, r.2)

/-- toObject(options). -/
def toObject (st : State) (options : Option Options) : Value × State :=
  toObjectM st options false

/-- toJSON(options): same engine with the json flag forced. -/
def toJSON (st : State) (options : Option Options) : Value × State :=
  toObjectM st options true

/-- Keys of a serialized result (empty for a non-object transform
replacement). -/
def resultKeys : Value → List String
  | Value.obj kvs => jsKeys kvs
  | _ => []

/-- Option merge helper for the specification reading of the option
resolution: keys present in the second object override the first. -/
def overrideOpts (base over : Options) : Options :=
  { transform := match over.transform with | some t => some t | none => base.transform,
    json := match over.json with | some b => some b | none => base.json,
    minimize := match over.minimize with | some b => some b | none => base.minimize,
    virtuals := match over.virtuals with | some b => some b | none => base.virtuals,
    serializable := match over.serializable with | some b => some b | none => base.serializable,
    dateToISO := match over.dateToISO with | some b => some b | none => base.dateToISO,
    useSchemaOptions := over.useSchemaOptions || base.useSchemaOptions }

/-- Modelled from the spec, for comparison with the implementation:
the effective option set described as a three-way merge, in precedence
order explicit call-time options over schema-level toObject/toJSON
options over the engine defaults transform: true, minimize: true,
virtuals: false, serializable: true, dateToISO: false. -/
def specEffectiveOptions (sch : Schema) (options : Option Options) (json : Bool) :
    Options :=
  let engine : Options :=
    { transform := some (TransformVal.tbool true), json := some json,
      minimize := some true, virtuals := some false,
      serializable := some true, dateToISO := some false }
  let schemaOpt : Options :=
    match (if json then sch.toJSONOpts else sch.toObjectOpts) with
    | some o => o
    | none => {}
  let caller : Options :=
    match options with
    | some o => o
    | none => {}
  overrideOpts (overrideOpts engine schemaOpt) caller

/-- A value that already conforms to a field type as a defined scalar
(including dates); such values pass the typecast unchanged. -/
def scalarFor (t : FType) (v : Value) : Bool :=
  match t, v with
  | FType.string, Value.str _ => true
  | FType.number, Value.num _ => true
  | FType.boolean, Value.bool _ => true
  | FType.date, Value.date _ => true
  | FType.any, Value.str _ => true
  | FType.any, Value.num _ => true
  | FType.any, Value.bool _ => true
  | FType.any, Value.date _ => true
  | _, _ => false

/-- Shape test: a defined scalar or date value. -/
def scalarShape : Value → Bool
  | Value.str _ => true
  | Value.num _ => true
  | Value.bool _ => true
  | Value.date _ => true
  | _ => false

/-- Shape test: a plain (non-date) scalar value. -/
def plainScalar : Value → Bool
  | Value.str _ => true
  | Value.num _ => true
  | Value.bool _ => true
  | _ => false

/-- Value under a key of a serialized result. -/
def resultGet : Value → String → Value
  | Value.obj kvs, n => jsGet kvs n
  | _, _ => Value.undef

/-- Concrete document for the serialization frame effect: one plain
array field holding one element. -/
def c1sch : Schema := { fields := [("tags", { type := FType.array })] }

def c1doc : State := setKey (construct false c1sch none) "tags" (Value.arr [Value.str "a"])

/-- Concrete round-trip instance: one array field holding the empty
array. -/
def c2sch : Schema := { fields := [("xs", { type := FType.array })] }

def c2x : State := setKey (construct false c2sch none) "xs" (Value.arr [])

def c2y : State := set (construct false c2sch none) (toObject c2x none).1 none

/-- Concrete round-trip schema of defined scalar fields. -/
def c2asch : Schema :=
  { fields := [("a", { type := FType.string }), ("b", { type := FType.number }),
      ("c", { type := FType.date })] }

def c2ax : State :=
  setMap (construct false c2asch none)
    [("a", Value.str "x"), ("b", Value.num 5), ("c", Value.date 7)]

/-- Concrete round-trip schema carrying a readOnly field with a
literal scalar default beside a plain field. -/
def c2rsch : Schema :=
  { fields := [
      ("a", { type := FType.string }),
      ("ro",
        { type := FType.string, readOnly := true,
          default := some (DefaultSpec.lit (Value.str "locked")) })] }

def c2rx : State := construct false c2rsch (some [("a", Value.str "x")])

/-- Concrete schema whose toObject options carry dateToISO. -/
def c3sch : Schema := { fields := [], toObjectOpts := some { dateToISO := some true } }

/-- Concrete document with a populated date field. -/
def c4sch : Schema := { fields := [("d", { type := FType.date })] }

def c4doc : State := setKey (construct false c4sch none) "d" (Value.date 0)

/-- Concrete minimize instance: a zero, an empty array, an untouched
field. -/
def c5sch : Schema :=
  { fields := [("z", { type := FType.number }), ("e", { type := FType.array }),
      ("u", { type := FType.string })] }

def c5doc : State := setMap (construct false c5sch none) [("z", Value.num 0), ("e", Value.arr [])]

/-- Concrete event-emitting non-strict model (extendEventEmitter
build). -/
def c6sch : Schema := { fields := [], strict := false }

def c6doc : State := construct true c6sch none

/-- Concrete non-strict plain model for dynamic extension. -/
def c6asch : Schema := { fields := [("nm", { type := FType.string })], strict := false }

def c6adoc : State := construct false c6asch none

/-- Concrete strict model. -/
def c6bsch : Schema := { fields := [("nm", { type := FType.string })], strict := true }

def c6bdoc : State := construct false c6bsch none

/-- Concrete constructor instance: a defaulted field, a readOnly
defaulted field, a plain field. -/
def c8sch : Schema :=
  { fields := [
      ("first", { type := FType.string, default := some (DefaultSpec.lit (Value.str "Bob")) }),
      ("ro",
        { type := FType.string, readOnly := true,
          default := some (DefaultSpec.lit (Value.str "locked")) }),
      ("nm", { type := FType.string })] }

def c8doc : State := construct false c8sch (some [("ro", Value.str "hack"), ("nm", Value.str "joe")])

/-- Concrete schema whose second default is a producer reading an
earlier sibling through the instance context. -/
def c8psch : Schema :=
  { fields := [
      ("first", { type := FType.string, default := some (DefaultSpec.lit (Value.str "Ada")) }),
      ("full",
        { type := FType.string, readOnly := true,
          default := some (DefaultSpec.fn (fun s => jsGet s "first")) })] }

/-- Concrete serialization-skip instance: an invisible field, a
virtual field, a plain field. -/
def c9sch : Schema :=
  { fields := [
      ("secret", { type := FType.string, invisible := true }),
      ("v", { virtual := true, virtualGet := some (fun _ => Value.str "vv") }),
      ("nm", { type := FType.string })] }

def c9doc : State := setMap (construct false c9sch none) [("secret", Value.str "s"), ("nm", Value.str "n")]

/-- Concrete event-emitting strict-off model with one declared
field. -/
def c10sch : Schema := { fields := [("nm", { type := FType.string })], strict := false }

def c10doc : State := construct true c10sch none

@[simp] theorem jsGet_nil (k : String) : jsGet [] k = Value.undef := rfl

@[simp] theorem jsGet_cons (k k' : String) (v : Value) (rest : JsObj) :
    jsGet ((k', v) :: rest) k = if k' = k then v else jsGet rest k := rfl

theorem jsGet_put_self (o : JsObj) (k : String) (v : Value) :
    jsGet (jsPut o k v) k = v := by
  induction o with
  | nil => simp [jsPut]
  | cons h t ih =>
    obtain ⟨k', v'⟩ := h
    by_cases hk : k' = k <;> simp [jsPut, hk, ih]

theorem jsGet_put_ne (o : JsObj) (k m : String) (v : Value) (h : m ≠ k) :
    jsGet (jsPut o k v) m = jsGet o m := by
  have hne : ¬(k = m) := fun hh => h hh.symm
  induction o with
  | nil =>
    simp only [jsPut, jsGet_nil, jsGet_cons]
    rw [if_neg hne]
  | cons hd t ih =>
    obtain ⟨k', v'⟩ := hd
    by_cases hk : k' = k
    · subst hk
      simp only [jsPut, if_pos rfl, if_true, jsGet_cons, ite_true]
      rw [if_neg hne, if_neg hne]
    · simp only [jsPut, if_neg hk, jsGet_cons]
      by_cases hm : k' = m
      · rw [if_pos hm, if_pos hm]
      · rw [if_neg hm, if_neg hm, ih]

theorem jsKeys_put (o : JsObj) (k : String) (v : Value) :
    jsKeys (jsPut o k v) = if k ∈ jsKeys o then jsKeys o else jsKeys o ++ [k] := by
  induction o with
  | nil => simp [jsPut, jsKeys]
  | cons hd t ih =>
    obtain ⟨k', v'⟩ := hd
    by_cases hk : k' = k
    · subst hk
      simp [jsPut, jsKeys]
    · simp only [jsPut, if_neg hk, jsKeys, List.map_cons] at *
      rw [ih]
      by_cases hm : k ∈ List.map Prod.fst t
      · rw [if_pos hm, if_pos (List.mem_cons_of_mem _ hm)]
      · rw [if_neg hm, if_neg ?_, List.cons_append]
        intro hc
        rcases List.mem_cons.mp hc with hc | hc
        · exact hk hc.symm
        · exact hm hc

theorem mem_jsKeys_put (o : JsObj) (k m : String) (v : Value) :
    m ∈ jsKeys (jsPut o k v) ↔ m ∈ jsKeys o ∨ m = k := by
  rw [jsKeys_put]
  by_cases h : k ∈ jsKeys o
  · simp only [if_pos h]
    constructor
    · exact fun hm => Or.inl hm
    · rintro (hm | rfl)
      · exact hm
      · exact h
  · simp [if_neg h, List.mem_append]

theorem jsPut_put_same (o : JsObj) (k : String) (a b : Value) :
    jsPut (jsPut o k a) k b = jsPut o k b := by
  induction o with
  | nil => simp [jsPut]
  | cons hd t ih =>
    obtain ⟨k', v'⟩ := hd
    by_cases hk : k' = k <;> simp [jsPut, hk, ih]

theorem jsPut_fresh (o : JsObj) (k : String) (v : Value) (h : k ∉ jsKeys o) :
    jsPut o k v = o ++ [(k, v)] := by
  induction o with
  | nil => simp [jsPut]
  | cons hd t ih =>
    obtain ⟨k', v'⟩ := hd
    simp only [jsKeys, List.map_cons, List.mem_cons] at h
    push_neg at h
    simp only [jsPut, if_neg (fun hh : k' = k => h.1 hh.symm),
      ih (by simpa [jsKeys] using h.2), List.cons_append]

theorem jsGet_append_left (o o' : JsObj) (k : String) (h : k ∈ jsKeys o) :
    jsGet (o ++ o') k = jsGet o k := by
  induction o with
  | nil => simp [jsKeys] at h
  | cons hd t ih =>
    obtain ⟨k', v'⟩ := hd
    by_cases hk : k' = k
    · simp [jsGet, hk]
    · simp only [jsKeys, List.map_cons, List.mem_cons] at h
      rcases h with h | h
      · exact absurd h.symm hk
      · simp [jsGet, hk, ih (by simpa [jsKeys] using h)]

theorem typecast_scalar (p : FieldDesc) (v cur : Value) (h : scalarFor p.type v = true) :
    typecast p v cur = (some v, []) := by
  cases ht : p.type <;> cases v <;>
    simp [scalarFor, ht] at h <;>
    simp [typecast, ht, typecastPrim]

theorem applyPipeline_clean (p : FieldDesc) (raw cur : Value) (b : Bool)
    (hro : (p.readOnly && !b) = false) (htr : p.transform = none)
    (hva : p.validate = none) (hs : scalarFor p.type raw = true) :
    applyPipeline p raw cur b = (raw, []) := by
  simp [applyPipeline, hro, htr, hva, typecast_scalar p raw cur hs]

theorem applyPipeline_readOnly (p : FieldDesc) (raw cur : Value)
    (hro : p.readOnly = true) : applyPipeline p raw cur false = (cur, []) := by
  simp [applyPipeline, hro]

theorem writeDeclared_schema (st : State) (n : String) (p : FieldDesc) (v : Value)
    (b : Bool) : (writeDeclared st n p v b).schema = st.schema := by
  by_cases hv : p.virtual <;> simp [writeDeclared, hv]

theorem writeDeclared_ext (st : State) (n : String) (p : FieldDesc) (v : Value)
    (b : Bool) : (writeDeclared st n p v b).ext = st.ext := by
  by_cases hv : p.virtual <;> simp [writeDeclared, hv]

theorem writeDeclared_store_ne (st : State) (n : String) (p : FieldDesc) (v : Value)
    (b : Bool) (m : String) (hm : m ≠ n) :
    jsGet (writeDeclared st n p v b).store m = jsGet st.store m := by
  by_cases hv : p.virtual <;> simp [writeDeclared, hv, jsGet_put_ne _ _ _ _ hm]

theorem writeDeclared_clean (st : State) (n : String) (p : FieldDesc) (v : Value)
    (b : Bool) (hvirt : p.virtual = false) (hro : (p.readOnly && !b) = false)
    (htr : p.transform = none) (hva : p.validate = none)
    (hs : scalarFor p.type v = true) :
    writeDeclared st n p v b = { st with store := jsPut st.store n v } := by
  simp [writeDeclared, hvirt, applyPipeline_clean p v _ b hro htr hva hs]

theorem writeDeclared_readOnly_get (st : State) (n : String) (p : FieldDesc) (v : Value)
    (hvirt : p.virtual = false) (hro : p.readOnly = true) (m : String) :
    jsGet (writeDeclared st n p v false).store m = jsGet st.store m := by
  by_cases hm : m = n
  · subst hm
    simp [writeDeclared, hvirt, applyPipeline_readOnly p v _ hro, jsGet_put_self]
  · exact writeDeclared_store_ne st n p v false m hm

theorem writeDeclared_readOnly_errors (st : State) (n : String) (p : FieldDesc)
    (v : Value) (hvirt : p.virtual = false) (hro : p.readOnly = true) :
    (writeDeclared st n p v false).errors = st.errors := by
  simp [writeDeclared, hvirt, applyPipeline_readOnly p v _ hro]

theorem findField_append (l1 l2 : List (String × FieldDesc)) (m : String) :
    findField (l1 ++ l2) m =
      (match findField l1 m with
       | some d => some d
       | none => findField l2 m) := by
  induction l1 with
  | nil => simp [findField]
  | cons hd t ih =>
    obtain ⟨k, d⟩ := hd
    by_cases hk : k = m <;> simp [findField, hk, ih]

theorem findField_append_single_ne (l : List (String × FieldDesc)) (k m : String)
    (d : FieldDesc) (hm : m ≠ k) :
    findField (l ++ [(k, d)]) m = findField l m := by
  rw [findField_append]
  cases hf : findField l m <;>
    simp only [findField, if_neg (fun hh : k = m => hm hh.symm)]

theorem setKey_of_core_true (st : State) (n : String) (v : Value) (st' : State)
    (hdot : (st.schema.dotPaths && hasDot n) = false)
    (hc : proxySetCore st n v = (true, st')) : setKey st n v = st' := by
  unfold setKey assignProxy
  rw [hdot, hc]
  rfl

theorem setKey_of_core_false (st : State) (n : String) (v : Value) (st2 : State)
    (hdot : (st.schema.dotPaths && hasDot n) = false)
    (hc : proxySetCore st n v = (false, st2)) : setKey st n v = st := by
  unfold setKey assignProxy
  rw [hdot, hc]
  rfl

theorem proxySetCore_declared (st : State) (n : String) (p : FieldDesc) (v : Value)
    (hf : Schema.find st.schema n = some p) :
    proxySetCore st n v = (true, writeDeclared st n p v false) := by
  unfold proxySetCore
  rw [hf]

theorem proxySetCore_internal (st : State) (n : String) (v : Value)
    (hf : Schema.find st.schema n = none)
    (hin : (st.ext && eventEmmiterInternals.contains n) = true) :
    proxySetCore st n v = (true, st) := by
  unfold proxySetCore
  rw [hf, hin]
  rfl

theorem proxySetCore_strict (st : State) (n : String) (v : Value)
    (hf : Schema.find st.schema n = none)
    (hin : (st.ext && eventEmmiterInternals.contains n) = false)
    (hstrict : st.schema.strict = true) :
    proxySetCore st n v = (false, st) := by
  unfold proxySetCore
  rw [hf, hin, hstrict]
  rfl

theorem proxySetCore_extend (st : State) (n : String) (v : Value)
    (hf : Schema.find st.schema n = none)
    (hin : (st.ext && eventEmmiterInternals.contains n) = false)
    (hstrict : st.schema.strict = false) :
    proxySetCore st n v =
      (true, writeDeclared
        { st with schema := { st.schema with fields := st.schema.fields ++ [(n, anyDesc)] } }
        n anyDesc v false) := by
  unfold proxySetCore
  rw [hf, hin, hstrict]
  rfl

theorem setKey_declared (st : State) (n : String) (p : FieldDesc) (v : Value)
    (hdot : (st.schema.dotPaths && hasDot n) = false)
    (hf : Schema.find st.schema n = some p) :
    setKey st n v = writeDeclared st n p v false :=
  setKey_of_core_true st n v _ hdot (proxySetCore_declared st n p v hf)

theorem setKey_internal (st : State) (n : String) (v : Value)
    (hdot : (st.schema.dotPaths && hasDot n) = false)
    (hf : Schema.find st.schema n = none)
    (hin : (st.ext && eventEmmiterInternals.contains n) = true) :
    setKey st n v = st :=
  setKey_of_core_true st n v st hdot (proxySetCore_internal st n v hf hin)

theorem setKey_strict (st : State) (n : String) (v : Value)
    (hdot : (st.schema.dotPaths && hasDot n) = false)
    (hf : Schema.find st.schema n = none)
    (hin : (st.ext && eventEmmiterInternals.contains n) = false)
    (hstrict : st.schema.strict = true) :
    setKey st n v = st :=
  setKey_of_core_false st n v st hdot (proxySetCore_strict st n v hf hin hstrict)

theorem setKey_extend (st : State) (n : String) (v : Value)
    (hdot : (st.schema.dotPaths && hasDot n) = false)
    (hf : Schema.find st.schema n = none)
    (hin : (st.ext && eventEmmiterInternals.contains n) = false)
    (hstrict : st.schema.strict = false) :
    setKey st n v =
      writeDeclared
        { st with schema := { st.schema with fields := st.schema.fields ++ [(n, anyDesc)] } }
        n anyDesc v false :=
  setKey_of_core_true st n v _ hdot (proxySetCore_extend st n v hf hin hstrict)

theorem setKey_frame (st : State) (n : String) (v : Value)
    (hdp : st.schema.dotPaths = false) :
    (setKey st n v).ext = st.ext ∧
    (setKey st n v).schema.dotPaths = false ∧
    (setKey st n v).schema.strict = st.schema.strict ∧
    ∀ m, m ≠ n →
      jsGet (setKey st n v).store m = jsGet st.store m ∧
      Schema.find (setKey st n v).schema m = Schema.find st.schema m := by
  have hdot : (st.schema.dotPaths && hasDot n) = false := by simp [hdp]
  cases hf : Schema.find st.schema n with
  | some p =>
    rw [setKey_declared st n p v hdot hf]
    refine ⟨writeDeclared_ext _ _ _ _ _, ?_, ?_, ?_⟩
    · rw [writeDeclared_schema]
      exact hdp
    · rw [writeDeclared_schema]
    · intro m hm
      refine ⟨writeDeclared_store_ne st n p v false m hm, ?_⟩
      rw [writeDeclared_schema]
  | none =>
    cases hin : st.ext && eventEmmiterInternals.contains n with
    | true =>
      rw [setKey_internal st n v hdot hf hin]
      exact ⟨rfl, hdp, rfl, fun m _ => ⟨rfl, rfl⟩⟩
    | false =>
      cases hstrict : st.schema.strict with
      | true =>
        rw [setKey_strict st n v hdot hf hin hstrict]
        exact ⟨rfl, hdp, hstrict, fun m _ => ⟨rfl, rfl⟩⟩
      | false =>
        rw [setKey_extend st n v hdot hf hin hstrict]
        refine ⟨writeDeclared_ext _ _ _ _ _, ?_, ?_, ?_⟩
        · rw [writeDeclared_schema]
          exact hdp
        · rw [writeDeclared_schema]
          exact hstrict
        · intro m hm
          refine ⟨writeDeclared_store_ne _ n anyDesc v false m hm, ?_⟩
          rw [writeDeclared_schema]
          show Schema.find _ m = _
          simp only [Schema.find]
          exact findField_append_single_ne st.schema.fields n m anyDesc hm

theorem setKey_clean (st : State) (n : String) (p : FieldDesc) (v : Value)
    (hdp : st.schema.dotPaths = false)
    (hf : Schema.find st.schema n = some p)
    (hvirt : p.virtual = false) (hro : p.readOnly = false)
    (htr : p.transform = none) (hva : p.validate = none)
    (hs : scalarFor p.type v = true) :
    setKey st n v = { st with store := jsPut st.store n v } := by
  rw [setKey_declared st n p v (by simp [hdp]) hf,
    writeDeclared_clean st n p v false hvirt (by simp [hro]) htr hva hs]

theorem setKey_readOnly (st : State) (n : String) (p : FieldDesc) (v : Value)
    (hdp : st.schema.dotPaths = false)
    (hf : Schema.find st.schema n = some p)
    (hvirt : p.virtual = false) (hro : p.readOnly = true) :
    (∀ m, jsGet (setKey st n v).store m = jsGet st.store m) ∧
    (setKey st n v).errors = st.errors ∧
    (setKey st n v).schema = st.schema := by
  rw [setKey_declared st n p v (by simp [hdp]) hf]
  exact ⟨fun m => writeDeclared_readOnly_get st n p v hvirt hro m,
    writeDeclared_readOnly_errors st n p v hvirt hro,
    writeDeclared_schema st n p v false⟩

theorem setMap_frame (kvs : List (String × Value)) (st : State)
    (hdp : st.schema.dotPaths = false) :
    (setMap st kvs).ext = st.ext ∧
    (setMap st kvs).schema.dotPaths = false ∧
    (setMap st kvs).schema.strict = st.schema.strict ∧
    ∀ m, m ∉ kvs.map Prod.fst →
      jsGet (setMap st kvs).store m = jsGet st.store m ∧
      Schema.find (setMap st kvs).schema m = Schema.find st.schema m := by
  induction kvs generalizing st with
  | nil => exact ⟨rfl, hdp, rfl, fun m _ => ⟨rfl, rfl⟩⟩
  | cons hd t ih =>
    obtain ⟨hext, hdp', hstr, hfr⟩ := setKey_frame st hd.1 hd.2 hdp
    have step : setMap st (hd :: t) = setMap (setKey st hd.1 hd.2) t := by
      simp [setMap]
    obtain ⟨ihext, ihdp, ihstr, ihfr⟩ := ih (setKey st hd.1 hd.2) hdp'
    rw [step]
    refine ⟨ihext.trans hext, ihdp, ihstr.trans hstr, ?_⟩
    intro m hm
    simp only [List.map_cons, List.mem_cons] at hm
    push_neg at hm
    obtain ⟨hg, hfnd⟩ := hfr m hm.1
    obtain ⟨ihg, ihfnd⟩ := ihfr m hm.2
    exact ⟨ihg.trans hg, ihfnd.trans hfnd⟩

theorem setMap_writes (kvs : List (String × Value)) (st : State)
    (hdp : st.schema.dotPaths = false)
    (hnd : (kvs.map Prod.fst).Nodup)
    (hall : ∀ kv ∈ kvs, ∃ p, Schema.find st.schema kv.1 = some p ∧ p.virtual = false ∧
      p.readOnly = false ∧ p.transform = none ∧ p.validate = none ∧
      scalarFor p.type kv.2 = true) :
    ∀ kv ∈ kvs, jsGet (setMap st kvs).store kv.1 = kv.2 := by
  induction kvs generalizing st with
  | nil => intro kv hkv; simp at hkv
  | cons hd t ih =>
    obtain ⟨p, hf, hvirt, hro, htr, hva, hs⟩ := hall hd (List.mem_cons_self hd t)
    have hset : setKey st hd.1 hd.2 = { st with store := jsPut st.store hd.1 hd.2 } :=
      setKey_clean st hd.1 p hd.2 hdp hf hvirt hro htr hva hs
    have step : setMap st (hd :: t) = setMap (setKey st hd.1 hd.2) t := by
      simp [setMap]
    simp only [List.map_cons] at hnd
    have hnd' := List.Nodup.of_cons hnd
    have hhd : hd.1 ∉ t.map Prod.fst := (List.nodup_cons.mp hnd).1
    intro kv hkv
    rcases List.mem_cons.mp hkv with rfl | hkv'
    · rw [step, hset]
      obtain ⟨_, _, _, hfr⟩ :=
        setMap_frame t { st with store := jsPut st.store kv.1 kv.2 } hdp
      rw [(hfr kv.1 hhd).1]
      exact jsGet_put_self st.store kv.1 kv.2
    · rw [step, hset]
      refine ih { st with store := jsPut st.store hd.1 hd.2 } hdp hnd' ?_ kv hkv'
      intro kv' hkv''
      exact hall kv' (List.mem_cons_of_mem hd hkv'')

theorem pdStep_schema (s : State) (nf : String × FieldDesc) :
    (pdStep s nf).schema = s.schema := by
  cases h : nf.2.default with
  | none => simp [pdStep, h]
  | some d => simp [pdStep, h, writeDeclared_schema]

theorem pdStep_ext (s : State) (nf : String × FieldDesc) :
    (pdStep s nf).ext = s.ext := by
  cases h : nf.2.default with
  | none => simp [pdStep, h]
  | some d => simp [pdStep, h, writeDeclared_ext]

theorem pdStep_store_ne (s : State) (nf : String × FieldDesc) (m : String)
    (hm : m ≠ nf.1) : jsGet (pdStep s nf).store m = jsGet s.store m := by
  cases h : nf.2.default with
  | none => simp [pdStep, h]
  | some d => simp [pdStep, h, writeDeclared_store_ne s nf.1 nf.2 _ true m hm]

theorem foldl_pd_schema (l : List (String × FieldDesc)) (s : State) :
    (List.foldl pdStep s l).schema = s.schema := by
  induction l generalizing s with
  | nil => rfl
  | cons hd t ih => rw [List.foldl_cons, ih (pdStep s hd), pdStep_schema]

theorem foldl_pd_ext (l : List (String × FieldDesc)) (s : State) :
    (List.foldl pdStep s l).ext = s.ext := by
  induction l generalizing s with
  | nil => rfl
  | cons hd t ih => rw [List.foldl_cons, ih (pdStep s hd), pdStep_ext]

theorem foldl_pd_store_ne (l : List (String × FieldDesc)) (s : State) (m : String)
    (hm : m ∉ l.map Prod.fst) :
    jsGet (List.foldl pdStep s l).store m = jsGet s.store m := by
  induction l generalizing s with
  | nil => rfl
  | cons hd t ih =>
    simp only [List.map_cons, List.mem_cons] at hm
    push_neg at hm
    rw [List.foldl_cons, ih (pdStep s hd) hm.2, pdStep_store_ne s hd m hm.1]

theorem populateDefaults_schema (st : State) :
    (populateDefaults st).schema = st.schema :=
  foldl_pd_schema st.schema.fields st

theorem populateDefaults_ext (st : State) : (populateDefaults st).ext = st.ext :=
  foldl_pd_ext st.schema.fields st

theorem construct_none_schema (ext : Bool) (sch : Schema) :
    (construct ext sch none).schema = sch := by
  show (populateDefaults _).schema = sch
  rw [populateDefaults_schema]

theorem construct_none_ext (ext : Bool) (sch : Schema) :
    (construct ext sch none).ext = ext := by
  show (populateDefaults _).ext = ext
  rw [populateDefaults_ext]

theorem foldl_pd_lit (l1 l2 : List (String × FieldDesc)) (s : State) (n : String)
    (p : FieldDesc) (d : Value) (hn2 : n ∉ l2.map Prod.fst)
    (hdef : p.default = some (DefaultSpec.lit d))
    (hvirt : p.virtual = false) (htr : p.transform = none) (hva : p.validate = none)
    (hs : scalarFor p.type d = true) :
    jsGet (List.foldl pdStep s (l1 ++ (n, p) :: l2)).store n = d := by
  rw [List.foldl_append, List.foldl_cons]
  have hstep : pdStep (List.foldl pdStep s l1) (n, p) =
      writeDeclared (List.foldl pdStep s l1) n p d true := by
    simp [pdStep, hdef, resolveDefault]
  rw [hstep, writeDeclared_clean _ n p d true hvirt (by simp) htr hva hs,
    foldl_pd_store_ne l2 _ n hn2]
  exact jsGet_put_self _ n d

theorem jsKeys_put_or (o : JsObj) (k : String) (v : Value) :
    jsKeys (jsPut o k v) = jsKeys o ∨ jsKeys (jsPut o k v) = jsKeys o ++ [k] := by
  rw [jsKeys_put]
  by_cases h : k ∈ jsKeys o
  · rw [if_pos h]
    exact Or.inl rfl
  · rw [if_neg h]
    exact Or.inr rfl

theorem toObjectValueStep_frame (opts : Options) (name : String) (p : FieldDesc)
    (value : Value) (ret : JsObj) (st : State) (m : String) (hm : m ≠ name) :
    jsGet (toObjectValueStep opts name p value ret st).1 m = jsGet ret m ∧
    (m ∈ jsKeys (toObjectValueStep opts name p value ret st).1 ↔ m ∈ jsKeys ret) ∧
    jsGet (toObjectValueStep opts name p value ret st).2.store m = jsGet st.store m ∧
    (toObjectValueStep opts name p value ret st).2.schema = st.schema ∧
    (toObjectValueStep opts name p value ret st).2.errors = st.errors ∧
    (toObjectValueStep opts name p value ret st).2.ext = st.ext := by
  cases value <;>
    · simp only [toObjectValueStep]
      split_ifs <;>
        simp_all [jsGet_put_ne _ _ _ _ hm, mem_jsKeys_put, jsPut_put_same, hm]

theorem toObjectStep_frame (opts : Options) (acc : JsObj × State)
    (nf : String × FieldDesc) (m : String) (hm : m ≠ nf.1) :
    jsGet (toObjectStep opts acc nf).1 m = jsGet acc.1 m ∧
    (m ∈ jsKeys (toObjectStep opts acc nf).1 ↔ m ∈ jsKeys acc.1) ∧
    jsGet (toObjectStep opts acc nf).2.store m = jsGet acc.2.store m ∧
    (toObjectStep opts acc nf).2.schema = acc.2.schema ∧
    (toObjectStep opts acc nf).2.errors = acc.2.errors ∧
    (toObjectStep opts acc nf).2.ext = acc.2.ext := by
  obtain ⟨ret, st⟩ := acc
  obtain ⟨name, p⟩ := nf
  simp only at hm
  simp only [toObjectStep]
  split_ifs with h1 h2 h3 h4
  · exact ⟨rfl, Iff.rfl, rfl, rfl, rfl, rfl⟩
  · exact ⟨rfl, Iff.rfl, rfl, rfl, rfl, rfl⟩
  · exact ⟨rfl, Iff.rfl, rfl, rfl, rfl, rfl⟩
  · exact toObjectValueStep_frame opts name p _ ret st m hm
  · exact toObjectValueStep_frame opts name p _ ret st m hm

theorem toObjectFold_frame_list (opts : Options) (l : List (String × FieldDesc))
    (acc : JsObj × State) (m : String) (hm : m ∉ l.map Prod.fst) :
    jsGet (List.foldl (toObjectStep opts) acc l).1 m = jsGet acc.1 m ∧
    (m ∈ jsKeys (List.foldl (toObjectStep opts) acc l).1 ↔ m ∈ jsKeys acc.1) ∧
    jsGet (List.foldl (toObjectStep opts) acc l).2.store m = jsGet acc.2.store m ∧
    (List.foldl (toObjectStep opts) acc l).2.schema = acc.2.schema ∧
    (List.foldl (toObjectStep opts) acc l).2.errors = acc.2.errors ∧
    (List.foldl (toObjectStep opts) acc l).2.ext = acc.2.ext := by
  induction l generalizing acc with
  | nil => exact ⟨rfl, Iff.rfl, rfl, rfl, rfl, rfl⟩
  | cons hd t ih =>
    simp only [List.map_cons, List.mem_cons] at hm
    push_neg at hm
    obtain ⟨f1, f2, f3, f4, f5, f6⟩ := toObjectStep_frame opts acc hd m hm.1
    obtain ⟨g1, g2, g3, g4, g5, g6⟩ := ih (toObjectStep opts acc hd) hm.2
    rw [List.foldl_cons]
    exact ⟨g1.trans f1, g2.trans f2, g3.trans f3, g4.trans f4, g5.trans f5, g6.trans f6⟩

theorem toObjectStep_skip_invisible (opts : Options) (acc : JsObj × State)
    (nf : String × FieldDesc) (h1 : nf.2.invisible = true) (h2 : nf.2.virtual = false) :
    toObjectStep opts acc nf = acc := by
  simp [toObjectStep, h1, h2]

theorem toObjectStep_skip_virtual (opts : Options) (acc : JsObj × State)
    (nf : String × FieldDesc) (h1 : nf.2.virtual = true)
    (h2 : optTrue opts.virtuals = false) :
    toObjectStep opts acc nf = acc := by
  simp [toObjectStep, h1, h2]

theorem toObjectStep_plain (opts : Options) (acc : JsObj × State)
    (nf : String × FieldDesc) (hdp : acc.2.schema.dotPaths = false)
    (hinv : nf.2.invisible = false) (hvirt : nf.2.virtual = false)
    (hser : (!nf.2.serializable && (opts.serializable == some false)) = false) :
    toObjectStep opts acc nf =
      toObjectValueStep opts nf.1 nf.2 (readOwn acc.2 nf.1 nf.2) acc.1 acc.2 := by
  simp [toObjectStep, hinv, hvirt, hser, hdp]

theorem toObjectValueStep_absent (opts : Options) (name : String) (p : FieldDesc)
    (v : Value) (ret : JsObj) (st : State)
    (hmin : optTrue opts.minimize = true)
    (hv : v = Value.undef ∨ v = Value.null) :
    toObjectValueStep opts name p v ret st = (ret, st) := by
  rcases hv with rfl | rfl <;> simp [toObjectValueStep, hmin]

theorem toObjectValueStep_scalar (opts : Options) (name : String) (p : FieldDesc)
    (v : Value) (ret : JsObj) (st : State)
    (hv : plainScalar v = true) :
    toObjectValueStep opts name p v ret st = (jsPut ret name v, st) := by
  cases v <;> simp_all [toObjectValueStep, plainScalar]

theorem toObjectValueStep_date (opts : Options) (name : String) (p : FieldDesc)
    (t : Int) (ret : JsObj) (st : State) :
    toObjectValueStep opts name p (Value.date t) ret st =
      (jsPut ret name (Value.date t), st) := by
  cases h : optTrue opts.dateToISO <;>
    simp [toObjectValueStep, Value.isDate, jsSize, h, jsPut_put_same]

theorem toObjectValueStep_empty_arr (opts : Options) (name : String) (p : FieldDesc)
    (ret : JsObj) (st : State) (hmin : optTrue opts.minimize = true) :
    (toObjectValueStep opts name p (Value.arr []) ret st).1 = ret ∧
    (toObjectValueStep opts name p (Value.arr []) ret st).2.schema = st.schema ∧
    (toObjectValueStep opts name p (Value.arr []) ret st).2.errors = st.errors ∧
    (toObjectValueStep opts name p (Value.arr []) ret st).2.ext = st.ext := by
  simp only [toObjectValueStep, Value.isDate, jsSize]
  split_ifs <;> simp_all

theorem toObjectValueStep_empty_obj (opts : Options) (name : String) (p : FieldDesc)
    (ret : JsObj) (st : State) (hmin : optTrue opts.minimize = true) :
    toObjectValueStep opts name p (Value.obj []) ret st = (ret, st) := by
  simp [toObjectValueStep, Value.isDate, jsSize, hmin]

theorem toObjectValueStep_keys (opts : Options) (name : String) (p : FieldDesc)
    (v : Value) (ret : JsObj) (st : State) :
    jsKeys (toObjectValueStep opts name p v ret st).1 = jsKeys ret ∨
    jsKeys (toObjectValueStep opts name p v ret st).1 = jsKeys ret ++ [name] := by
  cases v <;>
    · simp only [toObjectValueStep]
      split_ifs <;>
        first
        | exact Or.inl rfl
        | (try rw [jsPut_put_same])
          exact jsKeys_put_or _ _ _

theorem toObjectStep_keys (opts : Options) (acc : JsObj × State)
    (nf : String × FieldDesc) :
    jsKeys (toObjectStep opts acc nf).1 = jsKeys acc.1 ∨
    jsKeys (toObjectStep opts acc nf).1 = jsKeys acc.1 ++ [nf.1] := by
  obtain ⟨ret, st⟩ := acc
  obtain ⟨name, p⟩ := nf
  simp only [toObjectStep]
  split_ifs
  · exact Or.inl rfl
  · exact Or.inl rfl
  · exact Or.inl rfl
  · exact toObjectValueStep_keys opts name p _ ret st
  · exact toObjectValueStep_keys opts name p _ ret st

theorem toObjectFold_keys_sublist (opts : Options) (l : List (String × FieldDesc))
    (acc : JsObj × State) :
    List.Sublist (jsKeys (List.foldl (toObjectStep opts) acc l).1)
      (jsKeys acc.1 ++ l.map Prod.fst) := by
  induction l generalizing acc with
  | nil => simp
  | cons hd t ih =>
    rw [List.foldl_cons, List.map_cons]
    have h := ih (toObjectStep opts acc hd)
    rcases toObjectStep_keys opts acc hd with hk | hk
    · rw [hk] at h
      exact h.trans ((List.sublist_cons_self hd.1 (t.map Prod.fst)).append_left _)
    · rw [hk, List.append_assoc, List.singleton_append] at h
      exact h

theorem fields_split {β : Type} (l : List (String × β)) (n : String) (p : β)
    (hmem : (n, p) ∈ l) (hnd : (l.map Prod.fst).Nodup) :
    ∃ l1 l2, l = l1 ++ (n, p) :: l2 ∧ n ∉ l1.map Prod.fst ∧ n ∉ l2.map Prod.fst := by
  obtain ⟨l1, l2, rfl⟩ := List.append_of_mem hmem
  rw [List.map_append, List.map_cons] at hnd
  obtain ⟨nd1, nd2, disj⟩ := List.nodup_append.mp hnd
  exact ⟨l1, l2, rfl, fun hmem1 => disj hmem1 (List.mem_cons_self n _),
    (List.nodup_cons.mp nd2).1⟩

theorem readOwn_raw (s : State) (n : String) (p : FieldDesc)
    (hv : p.virtual = false) (hg : p.getTransform = none) :
    readOwn s n p = jsGet s.store n := by
  simp [readOwn, hv, hg]

theorem typecast_any (v cur : Value) : typecast anyDesc v cur = (some v, []) := rfl

theorem scalarFor_shape (t : FType) (v : Value) (h : scalarFor t v = true) :
    scalarShape v = true := by
  cases t <;> cases v <;> first | rfl | exact Bool.noConfusion h

theorem findField_of_mem_nodup (l : List (String × FieldDesc)) (n : String)
    (p : FieldDesc) (hmem : (n, p) ∈ l) (hnd : (l.map Prod.fst).Nodup) :
    findField l n = some p := by
  induction l with
  | nil => simp at hmem
  | cons hd t ih =>
    obtain ⟨k, d⟩ := hd
    rw [List.map_cons] at hnd
    obtain ⟨hk, hnd'⟩ := List.nodup_cons.mp hnd
    rcases List.mem_cons.mp hmem with heq | hmem'
    · obtain ⟨rfl, rfl⟩ := Prod.mk.injEq .. ▸ heq
      · simp [findField]
    · have hkn : ¬(k = n) := by
        rintro rfl
        exact hk (List.mem_map.mpr ⟨(k, p), hmem', rfl⟩)
      simp only [findField, if_neg hkn]
      exact ih hmem' hnd'

theorem prepare_none (sch : Schema) (json : Bool)
    (h : (if json then sch.toJSONOpts else sch.toObjectOpts) = none) :
    prepareToObjectOptions sch none json =
      { transform := some (TransformVal.tbool true), json := some json,
        minimize := some true, useSchemaOptions := true } := by
  simp [prepareToObjectOptions, h]

theorem prepare_plain (sch : Schema) (o : Options) (json : Bool)
    (hu : o.useSchemaOptions = false) :
    prepareToObjectOptions sch (some o) json =
      { o with
        transform := some (match o.transform with
          | some t => t
          | none => TransformVal.tbool true),
        json := some (match o.json with | some b => b | none => json),
        minimize := some (match o.minimize with
          | some b => b
          | none =>
            match (if json then sch.toJSONOpts else sch.toObjectOpts) with
            | some so => (match so.minimize with | some b => b | none => true)
            | none => true) } := by
  simp [prepareToObjectOptions, hu]

theorem toObjectM_no_transform (st : State) (options : Option Options) (json : Bool)
    (hO : st.schema.toObjectOpts = none) (hJ : st.schema.toJSONOpts = none)
    (hT : (prepareToObjectOptions st.schema options json).transform =
      some (TransformVal.tbool true)) :
    toObjectM st options json =
      (Value.obj (toObjectFold (prepareToObjectOptions st.schema options json) st).1,
        (toObjectFold (prepareToObjectOptions st.schema options json) st).2) := by
  simp [toObjectM, hO, hJ, hT, Options.transformIsTrue, Options.transformTruthy]

theorem toObjectFold_key_omitted (opts : Options) (st : State) (n : String)
    (p : FieldDesc) (hmem : (n, p) ∈ st.schema.fields)
    (hnd : (st.schema.fields.map Prod.fst).Nodup)
    (hstep : ∀ (ret : JsObj) (s : State), s.schema = st.schema →
      jsGet s.store n = jsGet st.store n →
      (toObjectStep opts (ret, s) (n, p)).1 = ret) :
    n ∉ jsKeys (toObjectFold opts st).1 := by
  obtain ⟨l1, l2, heq, h1, h2⟩ := fields_split st.schema.fields n p hmem hnd
  unfold toObjectFold
  rw [heq, List.foldl_append, List.foldl_cons]
  obtain ⟨e1, e2, e3, e4, e5, e6⟩ :=
    toObjectFold_frame_list opts l1 ([], st) n h1
  set acc1 := List.foldl (toObjectStep opts) ([], st) l1 with hacc1
  have hs1 : (toObjectStep opts acc1 (n, p)).1 = acc1.1 := by
    have h := hstep acc1.1 acc1.2 e4 e3
    simpa using h
  intro hcontra
  rw [(toObjectFold_frame_list opts l2 (toObjectStep opts acc1 (n, p)) n h2).2.1,
    hs1, e2] at hcontra
  simp [jsKeys] at hcontra

theorem toObjectFold_included (opts : Options) (st : State) (n : String)
    (p : FieldDesc) (v : Value) (hmem : (n, p) ∈ st.schema.fields)
    (hnd : (st.schema.fields.map Prod.fst).Nodup)
    (hstep : ∀ (ret : JsObj) (s : State), s.schema = st.schema →
      jsGet s.store n = jsGet st.store n →
      toObjectStep opts (ret, s) (n, p) = (jsPut ret n v, s)) :
    jsGet (toObjectFold opts st).1 n = v ∧ n ∈ jsKeys (toObjectFold opts st).1 := by
  obtain ⟨l1, l2, heq, h1, h2⟩ := fields_split st.schema.fields n p hmem hnd
  unfold toObjectFold
  rw [heq, List.foldl_append, List.foldl_cons]
  obtain ⟨e1, e2, e3, e4, e5, e6⟩ :=
    toObjectFold_frame_list opts l1 ([], st) n h1
  set acc1 := List.foldl (toObjectStep opts) ([], st) l1 with hacc1
  have hs1 : toObjectStep opts acc1 (n, p) = (jsPut acc1.1 n v, acc1.2) := by
    have h := hstep acc1.1 acc1.2 e4 e3
    simpa using h
  obtain ⟨f1, f2, f3, f4, f5, f6⟩ :=
    toObjectFold_frame_list opts l2 (toObjectStep opts acc1 (n, p)) n h2
  constructor
  · rw [f1, hs1]
    exact jsGet_put_self acc1.1 n v
  · rw [f2, hs1]
    exact (mem_jsKeys_put acc1.1 n n v).mpr (Or.inr rfl)

theorem toObjectFold_scalar_list (opts : Options) (st : State)
    (hdp : st.schema.dotPaths = false) (l : List (String × FieldDesc)) (ret0 : JsObj)
    (hall : ∀ nf ∈ l, nf.2.virtual = false ∧ nf.2.invisible = false ∧
      nf.2.getTransform = none ∧
      (!nf.2.serializable && (opts.serializable == some false)) = false ∧
      scalarShape (jsGet st.store nf.1) = true)
    (hnd : (l.map Prod.fst).Nodup)
    (hfresh : ∀ nf ∈ l, nf.1 ∉ jsKeys ret0) :
    List.foldl (toObjectStep opts) (ret0, st) l =
      (ret0 ++ l.map (fun nf => (nf.1, jsGet st.store nf.1)), st) := by
  induction l generalizing ret0 with
  | nil => simp
  | cons hd t ih =>
    obtain ⟨n, p⟩ := hd
    obtain ⟨hvirt, hinv, hg, hser, hshape⟩ := hall (n, p) (List.mem_cons_self _ _)
    rw [List.map_cons] at hnd
    obtain ⟨hn, hnd'⟩ := List.nodup_cons.mp hnd
    have hstep : toObjectStep opts (ret0, st) (n, p) =
        (jsPut ret0 n (jsGet st.store n), st) := by
      rw [toObjectStep_plain opts (ret0, st) (n, p) hdp hinv hvirt hser]
      rw [show readOwn (ret0, st).2 (n, p).1 (n, p).2 = jsGet st.store n from
        readOwn_raw st n p hvirt hg]
      cases hv : jsGet st.store n <;> simp [hv, scalarShape] at hshape <;>
        first
        | exact toObjectValueStep_scalar opts n p _ ret0 st rfl
        | exact toObjectValueStep_date opts n p _ ret0 st
    rw [List.foldl_cons, hstep,
      jsPut_fresh ret0 n (jsGet st.store n) (hfresh (n, p) (List.mem_cons_self _ _))]
    rw [ih (ret0 ++ [(n, jsGet st.store n)])
      (fun nf hnf => hall nf (List.mem_cons_of_mem _ hnf)) hnd' ?_]
    · rw [List.map_cons, List.append_assoc, List.singleton_append]
    · intro nf hnf
      have hne : nf.1 ≠ n := by
        rintro rfl
        exact hn (List.mem_map.mpr ⟨nf, hnf, rfl⟩)
      have hfr := hfresh nf (List.mem_cons_of_mem _ hnf)
      simp only [jsKeys, List.map_append, List.map_cons, List.map_nil, List.mem_append,
        List.mem_cons, List.mem_singleton]
      rintro (hc | hc)
      · exact hfr (by simpa [jsKeys] using hc)
      · simp at hc
        exact hne hc

theorem toObjectFold_all_scalar (opts : Options) (st : State)
    (hdp : st.schema.dotPaths = false)
    (hnd : (st.schema.fields.map Prod.fst).Nodup)
    (hall : ∀ nf ∈ st.schema.fields, nf.2.virtual = false ∧ nf.2.invisible = false ∧
      nf.2.getTransform = none ∧
      (!nf.2.serializable && (opts.serializable == some false)) = false ∧
      scalarShape (jsGet st.store nf.1) = true) :
    toObjectFold opts st =
      (st.schema.fields.map (fun nf => (nf.1, jsGet st.store nf.1)), st) := by
  unfold toObjectFold
  have h := toObjectFold_scalar_list opts st hdp st.schema.fields [] hall hnd
    (fun nf _ => by simp [jsKeys])
  simpa using h

theorem readOwn_congr (s x : State) (n : String) (p : FieldDesc)
    (hv : p.virtual = false) (h : jsGet s.store n = jsGet x.store n) :
    readOwn s n p = readOwn x n p := by
  simp [readOwn, hv, h]

theorem setMap_append (st : State) (a b : List (String × Value)) :
    setMap st (a ++ b) = setMap (setMap st a) b := by
  simp [setMap, List.foldl_append]

theorem setMap_keeps_readOnly (kvs : List (String × Value)) (st : State)
    (n : String) (p : FieldDesc)
    (hdp : st.schema.dotPaths = false)
    (hf : Schema.find st.schema n = some p)
    (hro : p.readOnly = true) (hvirt : p.virtual = false) :
    jsGet (setMap st kvs).store n = jsGet st.store n := by
  induction kvs generalizing st with
  | nil => rfl
  | cons hd t ih =>
    have step : setMap st (hd :: t) = setMap (setKey st hd.1 hd.2) t := by
      simp [setMap]
    rw [step]
    by_cases hn : hd.1 = n
    · subst hn
      obtain ⟨hget, herr, hsch⟩ := setKey_readOnly st hd.1 p hd.2 hdp hf hvirt hro
      rw [ih (setKey st hd.1 hd.2) (by rw [hsch]; exact hdp) (by rw [hsch]; exact hf)]
      exact hget hd.1
    · obtain ⟨hext, hdp', hstr, hfr⟩ := setKey_frame st hd.1 hd.2 hdp
      obtain ⟨hget, hfind⟩ := hfr n (fun hh => hn hh.symm)
      rw [ih (setKey st hd.1 hd.2) hdp' (by rw [hfind]; exact hf)]
      exact hget

/-- C1: the claim states that toObject()/toJSON() leaves stored field
values unchanged, shallow-copying plain arrays and objects, and never
empties a stored array.  The code contradicts it: the array branch of
_toObject runs value.splice(0) on the array the getter handed out by
reference, which empties the stored array while returning its elements
as the copy.  Evaluated at a concrete document: before serialization
the stored array holds one element, the serialized output holds that
element, and after a plain toObject() call the stored array is empty. -/
theorem c1_toObject_empties_stored_array :
    jsGet c1doc.store "tags" = Value.arr [Value.str "a"] ∧
    (toObject c1doc none).1 = Value.obj [("tags", Value.arr [Value.str "a"])] ∧
    jsGet (toObject c1doc none).2.store "tags" = Value.arr [] :=
  ⟨rfl, rfl, rfl⟩

/-- C4: the claim states that a Date field serializes as a copy of the
stored date, or as its ISO-8601 string when dateToISO is resolved
true.  The code computes exactly that into ret inside the date branch
and then unconditionally overwrites it with ret[index] = value, so the
stored date itself lands in the result and dateToISO has no effect.
Evaluated at a concrete date field serialized with dateToISO: true:
the result holds the date, and no string at all. -/
theorem c4_dateToISO_overwritten :
    (toObject c4doc (some { dateToISO := some true })).1 =
      Value.obj [("d", Value.date 0)] ∧
    ∀ s : String,
      (toObject c4doc (some { dateToISO := some true })).1 ≠
        Value.obj [("d", Value.str s)] := by
  refine ⟨rfl, ?_⟩
  intro s h
  rw [show (toObject c4doc (some { dateToISO := some true })).1 =
    Value.obj [("d", Value.date 0)] from rfl] at h
  simp at h

/-- C7: set() returns normally on every path and value: the internal
proxy assignment either succeeds with a new state, which set returns,
or raises (the strict-mode trap refusal surfaces as a TypeError), and
set catches it and returns the instance untouched; failures surface
only through the error log, and hasErrors() holds exactly when the
log is non-empty. -/
theorem c7_set_never_throws_hasErrors :
    (∀ (st : State) (path : String) (v : Value),
      (∃ st', assignProxy st path v = Except.ok st' ∧ setKey st path v = st') ∨
      (∃ e, assignProxy st path v = Except.error e ∧ setKey st path v = st)) ∧
    (∀ st : State, hasErrors st = true ↔ getErrors st ≠ []) := by
  constructor
  · intro st path v
    cases h : assignProxy st path v with
    | ok st' => exact Or.inl ⟨st', rfl, by simp [setKey, h]⟩
    | error e => exact Or.inr ⟨e, rfl, by simp [setKey, h]⟩
  · intro st
    simp [hasErrors, getErrors]

/-- C10: on an event-emitting document (extendEventEmitter build), a
write to an undeclared field whose name collides with an EventEmitter
internal property is silently accepted as a successful no-op: the
trap answers true, nothing is stored, and even with strict: false the
shared schema is not extended. -/
theorem c10_emitter_internal_write_noop (st : State) (n : String) (v : Value)
    (hext : st.ext = true)
    (hf : Schema.find st.schema n = none)
    (hmem : n ∈ eventEmmiterInternals) :
    proxySetCore st n v = (true, st) ∧ setKey st n v = st := by
  have hnd : hasDot n = false := by
    fin_cases hmem <;> decide
  have hdot : (st.schema.dotPaths && hasDot n) = false := by
    rw [hnd, Bool.and_false]
  have hin : (st.ext && eventEmmiterInternals.contains n) = true := by
    rw [hext, Bool.true_and]
    fin_cases hmem <;> decide
  exact ⟨proxySetCore_internal st n v hf hin, setKey_internal st n v hdot hf hin⟩

/-- Witness for C10: writing the internal name _events on a concrete
event-emitting non-strict instance is swallowed whole. -/
theorem c10_emitter_internal_write_noop_witness :
    proxySetCore c10doc "_events" (Value.num 1) = (true, c10doc) ∧
    setKey c10doc "_events" (Value.num 1) = c10doc :=
  c10_emitter_internal_write_noop c10doc "_events" (Value.num 1) rfl rfl (by decide)

/-- C6 counterexample: the claim as stated covers every undeclared
field name, but on an event-emitting model with strict: false a write
to the EventEmitter-internal name _events is a silent no-op and is not
appended to the shared schema, against the claim that a non-strict
unknown-field write always appends an Any descriptor. -/
theorem c6_counterexample :
    c6sch.strict = false ∧
    c6doc.ext = true ∧
    setKey c6doc "_events" (Value.num 1) = c6doc ∧
    Schema.find (setKey c6doc "_events" (Value.num 1)).schema "_events" = none :=
  ⟨rfl, rfl, rfl, rfl⟩

/-- C6 (amended): for a write to an undeclared dot-free field name
that is not swallowed as an EventEmitter internal of an event-emitting
model: with strict: true the write is a complete no-op on the
instance, and with strict: false the name is appended to the shared
schema with the any-typed descriptor, the write proceeds (the value is
stored unchanged, no error is logged), and an instance constructed
later from the same mutated schema carries the new field slot. -/
theorem c6_unknown_field_write (st : State) (n : String) (v : Value)
    (hdot : (st.schema.dotPaths && hasDot n) = false)
    (hf : Schema.find st.schema n = none)
    (hin : (st.ext && eventEmmiterInternals.contains n) = false) :
    (st.schema.strict = true → setKey st n v = st) ∧
    (st.schema.strict = false →
      (setKey st n v).schema.fields = st.schema.fields ++ [(n, anyDesc)] ∧
      Schema.find (setKey st n v).schema n = some anyDesc ∧
      jsGet (setKey st n v).store n = v ∧
      (setKey st n v).errors = st.errors ∧
      (construct (setKey st n v).ext (setKey st n v).schema none).schema.fields =
        st.schema.fields ++ [(n, anyDesc)]) := by
  constructor
  · exact fun hstrict => setKey_strict st n v hdot hf hin hstrict
  · intro hstrict
    rw [setKey_extend st n v hdot hf hin hstrict]
    have hclean : writeDeclared
        { st with schema := { st.schema with fields := st.schema.fields ++ [(n, anyDesc)] } }
        n anyDesc v false =
        { st with
          schema := { st.schema with fields := st.schema.fields ++ [(n, anyDesc)] },
          store := jsPut st.store n v } := by
      simp [writeDeclared, applyPipeline, anyDesc, typecast, typecastPrim]
    rw [hclean]
    simp only [Schema.find] at hf
    refine ⟨rfl, ?_, jsGet_put_self st.store n v, rfl, ?_⟩
    · show findField (st.schema.fields ++ [(n, anyDesc)]) n = some anyDesc
      rw [findField_append, hf]
      simp [findField]
    · rw [construct_none_schema]

/-- Witness for C6 (amended): the strict instance rejects foo as a
no-op; the non-strict instance gains the foo slot and stores the
value. -/
theorem c6_unknown_field_write_witness :
    setKey c6bdoc "foo" (Value.num 1) = c6bdoc ∧
    (setKey c6adoc "foo" (Value.num 1)).schema.fields =
      c6adoc.schema.fields ++ [("foo", anyDesc)] ∧
    jsGet (setKey c6adoc "foo" (Value.num 1)).store "foo" = Value.num 1 := by
  refine ⟨(c6_unknown_field_write c6bdoc "foo" (Value.num 1) rfl rfl rfl).1 rfl, ?_, ?_⟩
  · exact ((c6_unknown_field_write c6adoc "foo" (Value.num 1) rfl rfl rfl).2 rfl).1
  · exact ((c6_unknown_field_write c6adoc "foo" (Value.num 1) rfl rfl rfl).2 rfl).2.2.1

/-- C3 counterexample: the claim says schema-level options the caller
does not set still apply under explicit call-time options.  With a
schema whose toObject options carry dateToISO: true and a caller
passing the empty plain options object, the implementation resolves
dateToISO to absent while the merge the claim describes resolves it to
true. -/
theorem c3_counterexample :
    (prepareToObjectOptions c3sch (some {}) false).dateToISO = none ∧
    (specEffectiveOptions c3sch (some {}) false).dateToISO = some true ∧
    (prepareToObjectOptions c3sch (some {}) false).dateToISO ≠
      (specEffectiveOptions c3sch (some {}) false).dateToISO := by
  refine ⟨rfl, rfl, ?_⟩
  intro h
  rw [show (prepareToObjectOptions c3sch (some {}) false).dateToISO = none from rfl,
    show (specEffectiveOptions c3sch (some {}) false).dateToISO = some true from rfl] at h
  exact Option.noConfusion h

/-- C3 (amended): when the caller passes a plain options object
without _useSchemaOptions, the schema-level toObject/toJSON option
objects are bypassed: the resolved virtuals, serializable and
dateToISO keys are exactly the caller's, transform and json are the
caller's filled with the defaults true and the json flag, and only
minimize falls back through the schema-level boolean minimize to
true; the schema option object applies as a whole only when no plain
options value is passed. -/
theorem c3_option_resolution (sch : Schema) (o : Options) (json : Bool)
    (hu : o.useSchemaOptions = false) :
    (prepareToObjectOptions sch (some o) json).virtuals = o.virtuals ∧
    (prepareToObjectOptions sch (some o) json).serializable = o.serializable ∧
    (prepareToObjectOptions sch (some o) json).dateToISO = o.dateToISO ∧
    (prepareToObjectOptions sch (some o) json).transform =
      some (match o.transform with | some t => t | none => TransformVal.tbool true) ∧
    (prepareToObjectOptions sch (some o) json).json =
      some (match o.json with | some b => b | none => json) ∧
    (prepareToObjectOptions sch (some o) json).minimize =
      some (match o.minimize with
        | some b => b
        | none =>
          match (if json then sch.toJSONOpts else sch.toObjectOpts) with
          | some so => (match so.minimize with | some b => b | none => true)
          | none => true) ∧
    (prepareToObjectOptions sch none json).virtuals =
      ((if json then sch.toJSONOpts else sch.toObjectOpts).getD {}).virtuals ∧
    (prepareToObjectOptions sch none json).dateToISO =
      ((if json then sch.toJSONOpts else sch.toObjectOpts).getD {}).dateToISO := by
  rw [prepare_plain sch o json hu]
  refine ⟨rfl, rfl, rfl, rfl, rfl, rfl, ?_, ?_⟩
  · cases h : (if json then sch.toJSONOpts else sch.toObjectOpts) <;>
      simp [prepareToObjectOptions, h]
  · cases h : (if json then sch.toJSONOpts else sch.toObjectOpts) <;>
      simp [prepareToObjectOptions, h]

/-- Witness for C3 (amended): the concrete schema carrying
dateToISO: true in its toObject options, called with empty plain
options. -/
theorem c3_option_resolution_witness :
    (prepareToObjectOptions c3sch (some {}) false).dateToISO = ({} : Options).dateToISO ∧
    (prepareToObjectOptions c3sch (some {}) false).minimize = some true :=
  ⟨(c3_option_resolution c3sch {} false rfl).2.2.1,
    (c3_option_resolution c3sch {} false rfl).2.2.2.2.2.1⟩

theorem toObjectStep_plain_read (opts : Options) (x : State) (n : String)
    (p : FieldDesc) (ret : JsObj) (s : State)
    (hsch : s.schema = x.schema) (hst : jsGet s.store n = jsGet x.store n)
    (hdp : x.schema.dotPaths = false)
    (hinv : p.invisible = false) (hvirt : p.virtual = false)
    (hser : (!p.serializable && (opts.serializable == some false)) = false) :
    toObjectStep opts (ret, s) (n, p) =
      toObjectValueStep opts n p (readOwn x n p) ret s := by
  rw [toObjectStep_plain opts (ret, s) (n, p) (by rw [hsch]; exact hdp) hinv hvirt hser]
  show toObjectValueStep opts n p (readOwn s n p) ret s = _
  rw [readOwn_congr s x n p hvirt hst]

/-- C2 counterexample: the round trip fails as stated on an instance
of a plain one-field array schema (no virtual, transform or invisible
fields) holding the empty array: default minimize omits the empty
aggregate from toObject(), so the freshly built instance leaves the
field undefined while x stores the empty array. -/
theorem c2_counterexample :
    jsGet c2x.store "xs" = Value.arr [] ∧
    (toObject c2x none).1 = Value.obj [] ∧
    jsGet c2y.store "xs" = Value.undef ∧
    jsGet c2y.store "xs" ≠ jsGet c2x.store "xs" := by
  refine ⟨rfl, rfl, rfl, ?_⟩
  intro h
  rw [show jsGet c2y.store "xs" = Value.undef from rfl,
    show jsGet c2x.store "xs" = Value.arr [] from rfl] at h
  exact Value.noConfusion h

theorem setMap_write_clean (kvs : List (String × Value)) (st : State)
    (n : String) (p : FieldDesc) (v : Value)
    (hdp : st.schema.dotPaths = false)
    (hf : Schema.find st.schema n = some p)
    (hmem : (n, v) ∈ kvs) (hnd : (kvs.map Prod.fst).Nodup)
    (hvirt : p.virtual = false) (hro : p.readOnly = false)
    (htr : p.transform = none) (hva : p.validate = none)
    (hs : scalarFor p.type v = true) :
    jsGet (setMap st kvs).store n = v := by
  obtain ⟨v1, v2, heqv, hv1, hv2⟩ := fields_split kvs n v hmem hnd
  rw [heqv, setMap_append]
  obtain ⟨hext1, hdp1, hstr1, hframe1⟩ := setMap_frame v1 st hdp
  obtain ⟨hg1, hfind1⟩ := hframe1 n hv1
  have hf1 : Schema.find (setMap st v1).schema n = some p := by
    rw [hfind1]
    exact hf
  have hstep : setMap (setMap st v1) ((n, v) :: v2) =
      setMap { setMap st v1 with store := jsPut (setMap st v1).store n v } v2 := by
    rw [show setMap (setMap st v1) ((n, v) :: v2) =
      setMap (setKey (setMap st v1) n v) v2 from rfl,
      setKey_clean (setMap st v1) n p v hdp1 hf1 hvirt hro htr hva hs]
  rw [hstep]
  obtain ⟨_, _, _, hframe2⟩ :=
    setMap_frame v2 { setMap st v1 with store := jsPut (setMap st v1).store n v } hdp1
  rw [(hframe2 n hv2).1]
  exact jsGet_put_self (setMap st v1).store n v

/-- C2 (amended): the round trip holds for schemas of fields carrying
no virtual, invisible, transform (write-time, get or schema-level) or
validate hooks, with no dot-notation, on an instance all of whose
stored field values are defined scalars conforming to their declared
types - undefined, null and empty aggregates are excluded, since
minimize omits those keys (and serializing a stored plain array
additionally empties it in place) - and whose readOnly fields hold
their literal defaults, as every constructed instance does because
only default population writes them: set with x.toObject() on a
freshly constructed instance of the same schema reproduces every
stored field value of x.  Validate hooks are excluded because
validation runs before typecast, so a validator can accept a raw
value yet reject the casted value the round trip feeds back. -/
theorem c2_scalar_roundtrip (x : State)
    (hnd : (x.schema.fields.map Prod.fst).Nodup)
    (hdp : x.schema.dotPaths = false)
    (hO : x.schema.toObjectOpts = none)
    (hJ : x.schema.toJSONOpts = none)
    (hfields : ∀ nf ∈ x.schema.fields,
      nf.2.virtual = false ∧ nf.2.invisible = false ∧
      (nf.2.readOnly = true →
        nf.2.default = some (DefaultSpec.lit (jsGet x.store nf.1))) ∧
      nf.2.transform = none ∧ nf.2.validate = none ∧ nf.2.getTransform = none ∧
      scalarFor nf.2.type (jsGet x.store nf.1) = true) :
    ∀ nf ∈ x.schema.fields,
      jsGet (set (construct x.ext x.schema none) (toObject x none).1 none).store nf.1 =
        jsGet x.store nf.1 := by
  have hprep : prepareToObjectOptions x.schema none false =
      { transform := some (TransformVal.tbool true), json := some false,
        minimize := some true, useSchemaOptions := true } :=
    prepare_none x.schema false (by simpa using hO)
  have hT : (prepareToObjectOptions x.schema none false).transform =
      some (TransformVal.tbool true) := by rw [hprep]
  have hall' : ∀ nf ∈ x.schema.fields, nf.2.virtual = false ∧ nf.2.invisible = false ∧
      nf.2.getTransform = none ∧
      (!nf.2.serializable &&
        ((prepareToObjectOptions x.schema none false).serializable == some false)) = false ∧
      scalarShape (jsGet x.store nf.1) = true := by
    intro nf hnf
    obtain ⟨h1, h2, h3, h4, h5, h6, h7⟩ := hfields nf hnf
    refine ⟨h1, h2, h6, ?_, scalarFor_shape _ _ h7⟩
    rw [hprep]
    simp
  have hfold := toObjectFold_all_scalar (prepareToObjectOptions x.schema none false)
    x hdp hnd hall'
  have hres : (toObject x none).1 =
      Value.obj (x.schema.fields.map (fun nf => (nf.1, jsGet x.store nf.1))) := by
    show (toObjectM x none false).1 = _
    rw [toObjectM_no_transform x none false hO hJ hT, hfold]
  have hmapfst : ((x.schema.fields.map (fun nf => (nf.1, jsGet x.store nf.1))).map
      Prod.fst) = x.schema.fields.map Prod.fst := by
    simp [List.map_map, Function.comp]
  have hsetform : set (construct x.ext x.schema none) (toObject x none).1 none =
      setMap (construct x.ext x.schema none)
        (x.schema.fields.map (fun nf => (nf.1, jsGet x.store nf.1))) := by
    rw [hres]
    rfl
  intro nf hnf
  rw [hsetform]
  obtain ⟨h1, h2, h3, h4, h5, h6, h7⟩ := hfields nf hnf
  have hfind : Schema.find (construct x.ext x.schema none).schema nf.1 = some nf.2 := by
    rw [construct_none_schema]
    exact findField_of_mem_nodup x.schema.fields nf.1 nf.2 hnf hnd
  cases hro : nf.2.readOnly with
  | false =>
    exact setMap_write_clean
      (x.schema.fields.map (fun nf => (nf.1, jsGet x.store nf.1)))
      (construct x.ext x.schema none) nf.1 nf.2 (jsGet x.store nf.1)
      (by rw [construct_none_schema]; exact hdp) hfind
      (List.mem_map.mpr ⟨nf, hnf, rfl⟩) (by rw [hmapfst]; exact hnd)
      h1 hro h4 h5 h7
  | true =>
    have hdef := h3 hro
    rw [setMap_keeps_readOnly _ (construct x.ext x.schema none) nf.1 nf.2
      (by rw [construct_none_schema]; exact hdp) hfind hro h1]
    obtain ⟨l1, l2, heq, hl1, hl2⟩ := fields_split x.schema.fields nf.1 nf.2 hnf hnd
    show jsGet (List.foldl pdStep
      { ext := x.ext, schema := x.schema, store := [], errors := [] }
      x.schema.fields).store nf.1 = jsGet x.store nf.1
    rw [heq]
    exact foldl_pd_lit l1 l2 _ nf.1 nf.2 (jsGet x.store nf.1) hl2 hdef h1 h4 h5 h7

/-- Witness for C2 (amended): the three-scalar instance round-trips
its string field, and the instance with a readOnly defaulted field
round-trips that field too. -/
theorem c2_scalar_roundtrip_witness :
    jsGet (set (construct c2ax.ext c2ax.schema none) (toObject c2ax none).1 none).store
      "a" = jsGet c2ax.store "a" ∧
    jsGet c2ax.store "a" = Value.str "x" ∧
    jsGet (set (construct c2rx.ext c2rx.schema none) (toObject c2rx none).1 none).store
      "ro" = jsGet c2rx.store "ro" ∧
    jsGet c2rx.store "ro" = Value.str "locked" := by
  refine ⟨?_, rfl, ?_, rfl⟩
  · exact c2_scalar_roundtrip c2ax (by decide) rfl rfl rfl
      (by
        intro nf hnf
        fin_cases hnf <;>
          exact ⟨rfl, rfl, fun hh => Bool.noConfusion hh, rfl, rfl, rfl, rfl⟩)
      ("a", { type := FType.string }) (List.mem_cons_self _ _)
  · exact c2_scalar_roundtrip c2rx (by decide) rfl rfl rfl
      (by
        intro nf hnf
        fin_cases hnf
        · exact ⟨rfl, rfl, fun hh => Bool.noConfusion hh, rfl, rfl, rfl, rfl⟩
        · exact ⟨rfl, rfl, fun hh => rfl, rfl, rfl, rfl, rfl⟩)
      ("ro",
        { type := FType.string, readOnly := true,
          default := some (DefaultSpec.lit (Value.str "locked")) })
      (List.Mem.tail _ (List.Mem.head _))

/-- C5: serialized with effective minimize: true (and no transform in
play): a non-virtual field whose read value is undefined or null is
omitted; one whose value is the empty array or empty object is
omitted; one holding a defined plain scalar - including the falsy 0,
false and the empty string - appears verbatim under its key; and a
date-valued field is exempt from the emptiness omission and appears. -/
theorem c5_minimize_semantics (x : State) (o : Options)
    (hnd : (x.schema.fields.map Prod.fst).Nodup)
    (hdp : x.schema.dotPaths = false)
    (hO : x.schema.toObjectOpts = none)
    (hJ : x.schema.toJSONOpts = none)
    (hu : o.useSchemaOptions = false)
    (htr : o.transform = none)
    (hmin : o.minimize = some true)
    (hser : o.serializable = none) :
    (∀ n p, (n, p) ∈ x.schema.fields → p.virtual = false →
      (readOwn x n p = Value.undef ∨ readOwn x n p = Value.null) →
      n ∉ resultKeys (toObject x (some o)).1) ∧
    (∀ n p, (n, p) ∈ x.schema.fields → p.virtual = false →
      (readOwn x n p = Value.arr [] ∨ readOwn x n p = Value.obj []) →
      n ∉ resultKeys (toObject x (some o)).1) ∧
    (∀ n p, (n, p) ∈ x.schema.fields → p.virtual = false → p.invisible = false →
      plainScalar (readOwn x n p) = true →
      resultGet (toObject x (some o)).1 n = readOwn x n p ∧
      n ∈ resultKeys (toObject x (some o)).1) ∧
    (∀ n p t, (n, p) ∈ x.schema.fields → p.virtual = false → p.invisible = false →
      readOwn x n p = Value.date t →
      resultGet (toObject x (some o)).1 n = Value.date t ∧
      n ∈ resultKeys (toObject x (some o)).1) := by
  have hprep := prepare_plain x.schema o false hu
  have hT : (prepareToObjectOptions x.schema (some o) false).transform =
      some (TransformVal.tbool true) := by
    rw [hprep, htr]
  have hmin' : optTrue (prepareToObjectOptions x.schema (some o) false).minimize = true := by
    rw [hprep]
    simp [optTrue, hmin]
  have hserOpt : ((prepareToObjectOptions x.schema (some o) false).serializable ==
      some false) = false := by
    rw [hprep]
    simp [hser]
  have hres := toObjectM_no_transform x (some o) false hO hJ hT
  have hkeys : resultKeys (toObject x (some o)).1 =
      jsKeys (toObjectFold (prepareToObjectOptions x.schema (some o) false) x).1 := by
    show resultKeys (toObjectM x (some o) false).1 = _
    rw [hres]
    rfl
  have hget : ∀ n, resultGet (toObject x (some o)).1 n =
      jsGet (toObjectFold (prepareToObjectOptions x.schema (some o) false) x).1 n := by
    intro n
    show resultGet (toObjectM x (some o) false).1 n = _
    rw [hres]
    rfl
  have hserp : ∀ p : FieldDesc,
      (!p.serializable &&
        ((prepareToObjectOptions x.schema (some o) false).serializable == some false)) =
        false := by
    intro p
    rw [hserOpt, Bool.and_false]
  refine ⟨?_, ?_, ?_, ?_⟩
  · intro n p hmem hvirt hval
    rw [hkeys]
    apply toObjectFold_key_omitted _ x n p hmem hnd
    intro ret s hsch hst
    by_cases hinv : p.invisible = true
    · rw [toObjectStep_skip_invisible _ (ret, s) (n, p) hinv hvirt]
    · have hinv' : p.invisible = false := by
        revert hinv
        cases p.invisible <;> simp
      rw [toObjectStep_plain_read _ x n p ret s hsch hst hdp hinv' hvirt (hserp p),
        toObjectValueStep_absent _ n p (readOwn x n p) ret s hmin' hval]
  · intro n p hmem hvirt hval
    rw [hkeys]
    apply toObjectFold_key_omitted _ x n p hmem hnd
    intro ret s hsch hst
    by_cases hinv : p.invisible = true
    · rw [toObjectStep_skip_invisible _ (ret, s) (n, p) hinv hvirt]
    · have hinv' : p.invisible = false := by
        revert hinv
        cases p.invisible <;> simp
      rw [toObjectStep_plain_read _ x n p ret s hsch hst hdp hinv' hvirt (hserp p)]
      rcases hval with hval | hval
      · rw [hval]
        exact (toObjectValueStep_empty_arr _ n p ret s hmin').1
      · rw [hval, toObjectValueStep_empty_obj _ n p ret s hmin']
  · intro n p hmem hvirt hinv hscal
    have hincl := toObjectFold_included
      (prepareToObjectOptions x.schema (some o) false) x n p (readOwn x n p) hmem hnd ?_
    · exact ⟨(hget n).trans hincl.1, hkeys ▸ hincl.2⟩
    · intro ret s hsch hst
      rw [toObjectStep_plain_read _ x n p ret s hsch hst hdp hinv hvirt (hserp p)]
      exact toObjectValueStep_scalar _ n p (readOwn x n p) ret s hscal
  · intro n p t hmem hvirt hinv hval
    have hincl := toObjectFold_included
      (prepareToObjectOptions x.schema (some o) false) x n p (Value.date t) hmem hnd ?_
    · exact ⟨(hget n).trans hincl.1, hkeys ▸ hincl.2⟩
    · intro ret s hsch hst
      rw [toObjectStep_plain_read _ x n p ret s hsch hst hdp hinv hvirt (hserp p), hval]
      exact toObjectValueStep_date _ n p t ret s

/-- Witness for C5: on the concrete three-field instance with
minimize: true, the untouched string field and the empty array field
are omitted and the zero-valued number field appears verbatim. -/
theorem c5_minimize_semantics_witness :
    "u" ∉ resultKeys (toObject c5doc (some { minimize := some true })).1 ∧
    "e" ∉ resultKeys (toObject c5doc (some { minimize := some true })).1 ∧
    resultGet (toObject c5doc (some { minimize := some true })).1 "z" = Value.num 0 := by
  have h := c5_minimize_semantics c5doc { minimize := some true }
    (by decide) rfl rfl rfl rfl rfl rfl rfl
  refine ⟨?_, ?_, ?_⟩
  · exact h.1 "u" { type := FType.string }
      (List.Mem.tail _ (List.Mem.tail _ (List.Mem.head _))) rfl (Or.inl rfl)
  · exact h.2.1 "e" { type := FType.array }
      (List.Mem.tail _ (List.Mem.head _)) rfl (Or.inl rfl)
  · exact ((h.2.2.1 "z" { type := FType.number } (List.Mem.head _) rfl rfl rfl).1).trans
      (show readOwn c5doc "z" { type := FType.number } = Value.num 0 from rfl)

/-- C9: in a serialization with no transform in play, an invisible
non-virtual field never reaches the result, a virtual field reaches it
only when the resolved options request virtuals, and the keys of the
result follow the schema declaration order (they form a sublist of the
declared field names). -/
theorem c9_invisible_virtual_order (x : State) (o : Options)
    (hnd : (x.schema.fields.map Prod.fst).Nodup)
    (hO : x.schema.toObjectOpts = none)
    (hJ : x.schema.toJSONOpts = none)
    (hu : o.useSchemaOptions = false)
    (htr : o.transform = none) :
    (∀ n p, (n, p) ∈ x.schema.fields → p.invisible = true → p.virtual = false →
      n ∉ resultKeys (toObject x (some o)).1) ∧
    (∀ n p, (n, p) ∈ x.schema.fields → p.virtual = true → optTrue o.virtuals = false →
      n ∉ resultKeys (toObject x (some o)).1) ∧
    List.Sublist (resultKeys (toObject x (some o)).1) (x.schema.fields.map Prod.fst) := by
  have hprep := prepare_plain x.schema o false hu
  have hT : (prepareToObjectOptions x.schema (some o) false).transform =
      some (TransformVal.tbool true) := by
    rw [hprep, htr]
  have hres := toObjectM_no_transform x (some o) false hO hJ hT
  have hkeys : resultKeys (toObject x (some o)).1 =
      jsKeys (toObjectFold (prepareToObjectOptions x.schema (some o) false) x).1 := by
    show resultKeys (toObjectM x (some o) false).1 = _
    rw [hres]
    rfl
  refine ⟨?_, ?_, ?_⟩
  · intro n p hmem hinv hvirt
    rw [hkeys]
    apply toObjectFold_key_omitted _ x n p hmem hnd
    intro ret s _ _
    rw [toObjectStep_skip_invisible _ (ret, s) (n, p) hinv hvirt]
  · intro n p hmem hvirt hv
    have hv' : optTrue (prepareToObjectOptions x.schema (some o) false).virtuals =
        false := by
      rw [hprep]
      exact hv
    rw [hkeys]
    apply toObjectFold_key_omitted _ x n p hmem hnd
    intro ret s _ _
    rw [toObjectStep_skip_virtual _ (ret, s) (n, p) hvirt hv']
  · rw [hkeys]
    have h := toObjectFold_keys_sublist (prepareToObjectOptions x.schema (some o) false)
      x.schema.fields ([], x)
    simpa [jsKeys] using h

/-- Witness for C9: on the concrete instance the invisible field and
the virtual field are absent from toObject() output, and the keys
respect declaration order. -/
theorem c9_invisible_virtual_order_witness :
    "secret" ∉ resultKeys (toObject c9doc (some {})).1 ∧
    "v" ∉ resultKeys (toObject c9doc (some {})).1 ∧
    List.Sublist (resultKeys (toObject c9doc (some {})).1)
      (c9doc.schema.fields.map Prod.fst) := by
  have h := c9_invisible_virtual_order c9doc {} (by decide) rfl rfl rfl rfl
  refine ⟨?_, ?_, h.2.2⟩
  · exact h.1 "secret" { type := FType.string, invisible := true }
      (List.Mem.head _) rfl rfl
  · exact h.2.1 "v" { virtual := true, virtualGet := some (fun _ => Value.str "vv") }
      (List.Mem.tail _ (List.Mem.head _)) rfl rfl

/-- C8: during construction every field with a default is populated
first with readOnly bypassed for exactly that write (a readOnly
literal default survives any caller-supplied value for the same
field), caller values are applied afterwards through the same set
pipeline (a clean non-readOnly field ends up with its caller value,
overriding its default), ordinary post-construction writes to
readOnly fields are silently ignored (store and error log untouched),
and a producer default runs with the instance as context and reads
an earlier-populated sibling (concrete instance c8psch). -/
theorem c8_constructor_defaults (ext : Bool) (sch : Schema)
    (values : List (String × Value))
    (hdp : sch.dotPaths = false)
    (hnd : (sch.fields.map Prod.fst).Nodup) :
    (∀ n p d, (n, p) ∈ sch.fields → p.readOnly = true → p.virtual = false →
      p.default = some (DefaultSpec.lit d) → p.transform = none → p.validate = none →
      scalarFor p.type d = true →
      jsGet (construct ext sch (some values)).store n = d) ∧
    (∀ n p v, Schema.find sch n = some p → (n, v) ∈ values →
      (values.map Prod.fst).Nodup →
      p.virtual = false → p.readOnly = false → p.transform = none → p.validate = none →
      scalarFor p.type v = true →
      jsGet (construct ext sch (some values)).store n = v) ∧
    (∀ (st : State) n p v, Schema.find st.schema n = some p →
      st.schema.dotPaths = false → p.readOnly = true → p.virtual = false →
      (∀ m, jsGet (setKey st n v).store m = jsGet st.store m) ∧
      (setKey st n v).errors = st.errors) ∧
    jsGet (construct false c8psch none).store "full" = Value.str "Ada" := by
  have hconstr : construct ext sch (some values) =
      setMap (populateDefaults { ext := ext, schema := sch, store := [], errors := [] })
        values := rfl
  set y0 := populateDefaults { ext := ext, schema := sch, store := [], errors := [] }
    with hy0
  have hy0sch : y0.schema = sch := populateDefaults_schema _
  refine ⟨?_, ?_, ?_, rfl⟩
  · intro n p d hmem hro hvirt hdef htr hva hs
    obtain ⟨l1, l2, heq, h1, h2⟩ := fields_split sch.fields n p hmem hnd
    have hpd : jsGet y0.store n = d := by
      show jsGet (List.foldl pdStep _ sch.fields).store n = d
      rw [heq]
      exact foldl_pd_lit l1 l2 _ n p d h2 hdef hvirt htr hva hs
    rw [hconstr, setMap_keeps_readOnly values y0 n p (by rw [hy0sch]; exact hdp)
      (by rw [hy0sch]; exact
        show Schema.find sch n = some p from findField_of_mem_nodup sch.fields n p hmem hnd)
      hro hvirt]
    exact hpd
  · intro n p v hf hmemv hndv hvirt hro htr hva hs
    obtain ⟨v1, v2, heqv, hv1, hv2⟩ := fields_split values n v hmemv hndv
    rw [hconstr, heqv, setMap_append]
    obtain ⟨hext1, hdp1, hstr1, hframe1⟩ :=
      setMap_frame v1 y0 (by rw [hy0sch]; exact hdp)
    obtain ⟨hg1, hfind1⟩ := hframe1 n hv1
    set y1 := setMap y0 v1 with hy1
    have hf1 : Schema.find y1.schema n = some p := by
      rw [hfind1, hy0sch]
      exact hf
    have hstep : setMap y1 ((n, v) :: v2) =
        setMap { y1 with store := jsPut y1.store n v } v2 := by
      simp only [setMap, List.foldl_cons]
      rw [show setKey y1 n v = { y1 with store := jsPut y1.store n v } from
        setKey_clean y1 n p v hdp1 hf1 hvirt hro htr hva hs]
    rw [hstep]
    obtain ⟨_, _, _, hframe2⟩ :=
      setMap_frame v2 { y1 with store := jsPut y1.store n v } hdp1
    rw [(hframe2 n hv2).1]
    exact jsGet_put_self y1.store n v
  · intro st n p v hf hdp' hro hvirt
    obtain ⟨hget, herr, _⟩ := setKey_readOnly st n p v hdp' hf hvirt hro
    exact ⟨hget, herr⟩

/-- Witness for C8: on the concrete instance the readOnly default
survives the caller value, the plain field takes the caller value, a
later write to the readOnly field changes nothing, and the producer
default reads its sibling. -/
theorem c8_constructor_defaults_witness :
    jsGet c8doc.store "ro" = Value.str "locked" ∧
    jsGet c8doc.store "nm" = Value.str "joe" ∧
    jsGet (setKey c8doc "ro" (Value.str "later")).store "ro" = jsGet c8doc.store "ro" ∧
    jsGet (construct false c8psch none).store "full" = Value.str "Ada" := by
  have h := c8_constructor_defaults false c8sch
    [("ro", Value.str "hack"), ("nm", Value.str "joe")] rfl (by decide)
  refine ⟨?_, ?_, ?_, h.2.2.2⟩
  · exact h.1 "ro"
      { type := FType.string, readOnly := true,
        default := some (DefaultSpec.lit (Value.str "locked")) }
      (Value.str "locked") (List.Mem.tail _ (List.Mem.head _)) rfl rfl rfl rfl rfl rfl
  · exact h.2.1 "nm" { type := FType.string } (Value.str "joe") rfl
      (List.Mem.tail _ (List.Mem.head _)) (by decide) rfl rfl rfl rfl rfl
  · exact (h.2.2.1 c8doc "ro"
      { type := FType.string, readOnly := true,
        default := some (DefaultSpec.lit (Value.str "locked")) }
      (Value.str "later") rfl rfl rfl rfl).1 "ro"

end Lounge

